import Mathlib

/-!
Verification of the panorama decode engine of the chronoframe repository.

The development shallowly embeds the decode engine's pure kernels:

* the half-float codec `floatToHalf` / `halfToFloat` (src/unnamed/part_002),
* the HDR scanline decoder and metadata reader (src/unnamed/part_002),
* the EXR channel selection and zip byte-transform logic (src/unnamed/part_001),
* the decode-size policy of the worker (src/app/workers/panorama-decoder.worker.ts),
* the decoder client's outstanding-request table (src/unnamed/part_001),
* the upload-time buffer validation (src/unnamed/part_004).

Machine integers are modelled as `Nat` with explicit `/ 2 ^ k` and `% 2 ^ k` for the
JavaScript `>>>`, `&` and `| ` operations on unsigned values (`|||` is kept where the
operands may overlap); byte buffers are `List Nat` of values `< 256`; JavaScript
numbers appearing in exact positions are modelled as `ℚ`.  Fallible code returns
`Except`.  Strings are modelled at the byte / character-list level (the inputs the
decoders compare against are all ASCII).
-/

/-! ## Half-float codec (src/unnamed/part_002, lines 4-59) -/

/-- Embedding of `floatToHalf` (src/unnamed/part_002, lines 4-40) on the binary32
bit pattern `x` of its argument (`floatView[0] = value; x = intView[0]`).
JS `>>> k` on an unsigned value is `/ 2 ^ k`, `& (2 ^ k - 1)` is `% 2 ^ k`.
The source subtracts 127 from the exponent field and compares the signed result;
here the raw field `exp` is kept, so `exp - 127 < -14` reads `exp < 113`,
`exp - 127 < -24` reads `exp < 103`, `exp - 127 > 15` reads `142 < exp`,
`shift = -(exp - 127) - 14` reads `113 - exp` and `(exp - 127) + 15` reads
`exp - 112`.  The source combines the pieces with the bitwise `|`, kept here as
`|||`: in the final branch the rounded mantissa `halfMantissa + roundBit` can
carry into bit 10, where it overlaps the exponent field. -/
def floatToHalf (x : Nat) : Nat :=
  let sign := x / 2 ^ 31 % 2
  let exp := x / 2 ^ 23 % 256
  let mantissa := x % 2 ^ 23
  if exp = 255 then
    if mantissa ≠ 0 then sign * 2 ^ 15 ||| 0x7e00
    else sign * 2 ^ 15 ||| 0x7c00
  else if exp < 113 then
    if exp < 103 then sign * 2 ^ 15
    else
      let m := mantissa ||| 0x800000
      let shift := 113 - exp
      let halfMantissa := m / 2 ^ (shift + 13)
      let roundBit := m / 2 ^ (shift + 12) % 2
      sign * 2 ^ 15 ||| (halfMantissa + roundBit)
  else if 142 < exp then sign * 2 ^ 15 ||| 0x7c00
  else
    let halfExp := (exp - 112) % 32
    let halfMantissa := mantissa / 2 ^ 13
    let roundBit := mantissa / 2 ^ 12 % 2
    sign * 2 ^ 15 ||| halfExp * 2 ^ 10 ||| (halfMantissa + roundBit)

/-- Round-to-nearest-even of `m / 2 ^ k` (used only with `1 ≤ k`, so
`2 ^ k / 2` is the exact tie point). -/
def rneShift (m k : Nat) : Nat :=
  let q := m / 2 ^ k
  let r := m % 2 ^ k
  if 2 ^ k / 2 < r ∨ (r = 2 ^ k / 2 ∧ q % 2 = 1) then q + 1 else q

/-- Reference encoder, following the spec's words ("the IEEE binary16 encoding
computed with round-to-nearest-even on the mantissa, with subnormal half results
(effective exponent < -14) encoded as binary16 subnormals, exponents > 15
overflowing to infinity, NaN and Infinity inputs propagated, and the sign of zero
preserved"): the IEEE-754 binary16 encoding, with round to nearest / ties to
even, of the binary32 value with bit pattern `x`.  For a finite input the value
is `±S·2^(exp-127-23)` with `S = 2^23 + mantissa` (normal) or `S = mantissa`
scaled by `2^(-126-23)` (binary32 subnormal, far below half the smallest
binary16 subnormal, hence rounding to a signed zero). -/
def ieeeFloatToHalf (x : Nat) : Nat :=
  let sign := x / 2 ^ 31 % 2
  let exp := x / 2 ^ 23 % 256
  let mantissa := x % 2 ^ 23
  if exp = 255 then
    if mantissa ≠ 0 then sign * 2 ^ 15 + 0x7e00 else sign * 2 ^ 15 + 0x7c00
  else if exp = 0 then sign * 2 ^ 15
  else
    let S := 2 ^ 23 + mantissa
    if 142 < exp then sign * 2 ^ 15 + 0x7c00
    else if 113 ≤ exp then
      let q := rneShift S 13
      if q = 2 ^ 11 then
        if exp = 142 then sign * 2 ^ 15 + 0x7c00
        else sign * 2 ^ 15 + (exp - 112 + 1) * 2 ^ 10
      else sign * 2 ^ 15 + (exp - 112) * 2 ^ 10 + (q - 2 ^ 10)
    else sign * 2 ^ 15 + rneShift S (126 - exp)

/-- Embedding of `halfToFloat` (src/unnamed/part_002, lines 42-59) as the exact
value of the returned JS number: `some q` for a finite result, `none` for
`±Infinity` and `NaN` (the callers that feed into scoring only test finiteness
and magnitude).  The sign of a zero result is not observable in `ℚ`;
`f32BitsOfHalf` below keeps it at the bit level. -/
def halfToFloatQ (half : Nat) : Option ℚ :=
  let sign : Nat := half / 2 ^ 15 % 2
  let exp : Nat := half / 2 ^ 10 % 32
  let mantissa : Nat := half % 2 ^ 10
  if exp = 0 then
    if mantissa = 0 then some 0
    else some ((if sign = 1 then -1 else 1) * (2 : ℚ) ^ (-14 : ℤ) * ((mantissa : ℚ) / 1024))
  else if exp = 31 then none
  else some ((if sign = 1 then -1 else 1) * (2 : ℚ) ^ ((exp : ℤ) - 15) * (1 + (mantissa : ℚ) / 1024))

/-- The binary32 bit pattern produced by storing `halfToFloat half` into a
`Float32Array` (the store in `floatToHalf`, src/unnamed/part_002 lines 5-6; it is
exact because every finite binary16 value is exactly representable in binary32):
`±2^(exp-15)·(1 + m/1024)` has exponent field `exp + 112` and mantissa `m·2^13`;
a binary16 subnormal `±m·2^(-24)` (with `t = ⌊log2 m⌋`) normalizes to exponent
field `t + 103` and mantissa `m·2^(23-t) - 2^23`; `±0` keeps its sign bit;
`±Infinity` has exponent field 255 and mantissa 0; the JS `NaN` stores as the
canonical quiet NaN `0x7fc00000`. -/
def f32BitsOfHalf (half : Nat) : Nat :=
  let sign := half / 2 ^ 15 % 2
  let exp := half / 2 ^ 10 % 32
  let mantissa := half % 2 ^ 10
  if exp = 0 then
    if mantissa = 0 then sign * 2 ^ 31
    else
      let t := Nat.log2 mantissa
      sign * 2 ^ 31 + (t + 103) * 2 ^ 23 + (mantissa * 2 ^ (23 - t) - 2 ^ 23)
  else if exp = 31 then
    if mantissa = 0 then sign * 2 ^ 31 + 255 * 2 ^ 23
    else 0x7fc00000
  else sign * 2 ^ 31 + (exp + 112) * 2 ^ 23 + mantissa * 2 ^ 13

/-! ## Decode size policy (src/app/workers/panorama-decoder.worker.ts, lines 13-32) -/

inductive PanoramaQuality
  | low
  | medium
  | high
deriving DecidableEq

/-- Embedding of `chooseDecodeMaxDim` (worker lines 13-19). -/
def chooseDecodeMaxDim (quality : PanoramaQuality) (maxTextureSize : Nat) : Nat :=
  let base :=
    match quality with
    | .low => 1024
    | .medium => 2048
    | .high => 4096
  max 256 (min base maxTextureSize)

/-- JS `Math.round` of a nonnegative rational: `⌊q + 1/2⌋` as a `Nat`. -/
def jsRound (q : ℚ) : Nat := (Int.floor (q + 1 / 2)).toNat

/-- The local `scale` of `computeDecodeSize` (worker lines 27-28):
`srcMax > maxDim ? maxDim / srcMax : 1`, with the JS floating-point quotient
modelled as an exact rational. -/
def decodeScale (width height maxDim : Nat) : ℚ :=
  if maxDim < max width height then (maxDim : ℚ) / ((max width height : Nat) : ℚ) else 1

/-- Embedding of `computeDecodeSize` (worker lines 21-32). -/
def computeDecodeSize (width height : Nat) (quality : PanoramaQuality)
    (maxTextureSize : Nat) : Nat × Nat :=
  (max 1 (jsRound ((width : ℚ) * decodeScale width height (chooseDecodeMaxDim quality maxTextureSize))),
   max 1 (jsRound ((height : ℚ) * decodeScale width height (chooseDecodeMaxDim quality maxTextureSize))))

/-- The size policy in the spec's words: `maxDim(quality) = 1024|2048|4096`
clamped to `[256, maxTextureSize]`, and
`decodeWidth/decodeHeight = round(width/height × min(1, maxDim/max(width,height)))`
floored to at least 1. -/
def decodeSizeSpec (width height : Nat) (quality : PanoramaQuality)
    (maxTextureSize : Nat) : Nat × Nat :=
  let base :=
    match quality with
    | .low => 1024
    | .medium => 2048
    | .high => 4096
  let maxDim := max 256 (min base maxTextureSize)
  let scale : ℚ := min 1 ((maxDim : ℚ) / ((max width height : Nat) : ℚ))
  (max 1 (jsRound ((width : ℚ) * scale)), max 1 (jsRound ((height : ℚ) * scale)))

theorem jsRound_le_self (n : Nat) (q : ℚ) (h : q ≤ n) : jsRound q ≤ n := by
  unfold jsRound
  have h1 : Int.floor (q + 1 / 2) ≤ (n : ℤ) := by
    rw [Int.floor_le_iff]
    push_cast
    linarith
  omega

theorem decodeScale_eq_min (width height maxDim : Nat) (hsrc : 0 < max width height) :
    decodeScale width height maxDim =
      min 1 ((maxDim : ℚ) / ((max width height : Nat) : ℚ)) := by
  have hsrcQ : (0 : ℚ) < ((max width height : Nat) : ℚ) := by exact_mod_cast hsrc
  unfold decodeScale
  by_cases hlt : maxDim < max width height
  · have h1 : (maxDim : ℚ) / ((max width height : Nat) : ℚ) ≤ 1 := by
      rw [div_le_one hsrcQ]
      exact_mod_cast hlt.le
    rw [if_pos hlt, min_eq_right h1]
  · have h1 : (1 : ℚ) ≤ (maxDim : ℚ) / ((max width height : Nat) : ℚ) := by
      rw [le_div_iff₀ hsrcQ]
      have h2 : max width height ≤ maxDim := not_lt.mp hlt
      calc (1 : ℚ) * ((max width height : Nat) : ℚ) = ((max width height : Nat) : ℚ) := by
            ring
        _ ≤ (maxDim : ℚ) := by exact_mod_cast h2
    rw [if_neg hlt, min_eq_left h1]

theorem computeDecodeSize_eq_spec (width height : Nat) (quality : PanoramaQuality)
    (maxTextureSize : Nat) (hw : 1 ≤ width) :
    computeDecodeSize width height quality maxTextureSize =
      decodeSizeSpec width height quality maxTextureSize := by
  have hsrc : 0 < max width height := by omega
  unfold computeDecodeSize decodeSizeSpec chooseDecodeMaxDim
  rw [decodeScale_eq_min width height _ hsrc]

theorem decodeScale_le_one (width height maxDim : Nat) (hsrc : 0 < max width height) :
    decodeScale width height maxDim ≤ 1 := by
  have hsrcQ : (0 : ℚ) < ((max width height : Nat) : ℚ) := by exact_mod_cast hsrc
  unfold decodeScale
  split
  · rw [div_le_one hsrcQ]
    exact_mod_cast (by omega : maxDim ≤ max width height)
  · exact le_refl 1

theorem computeDecodeSize_le (width height : Nat) (quality : PanoramaQuality)
    (maxTextureSize : Nat) (hw : 1 ≤ width) (hh : 1 ≤ height) :
    (computeDecodeSize width height quality maxTextureSize).1 ≤ width ∧
      (computeDecodeSize width height quality maxTextureSize).2 ≤ height := by
  have hsrc : 0 < max width height := by omega
  have hscale := decodeScale_le_one width height (chooseDecodeMaxDim quality maxTextureSize) hsrc
  unfold computeDecodeSize
  constructor
  · refine max_le hw (jsRound_le_self width _ ?_)
    calc (width : ℚ) * decodeScale width height (chooseDecodeMaxDim quality maxTextureSize)
        ≤ (width : ℚ) * 1 := mul_le_mul_of_nonneg_left hscale (by positivity)
      _ = (width : ℚ) := by ring
  · refine max_le hh (jsRound_le_self height _ ?_)
    calc (height : ℚ) * decodeScale width height (chooseDecodeMaxDim quality maxTextureSize)
        ≤ (height : ℚ) * 1 := mul_le_mul_of_nonneg_left hscale (by positivity)
      _ = (height : ℚ) := by ring

theorem computeDecodeSize_example :
    computeDecodeSize 4096 2048 PanoramaQuality.low 4096 = (1024, 512) := by
  norm_num [computeDecodeSize, jsRound, decodeScale, chooseDecodeMaxDim]
  exact ⟨rfl, rfl⟩

/-! ## Half-float lemmas -/

/-- Bitwise or is addition when the low operand fits below the high one. -/
theorem lor_split (i a b : Nat) (h : b < 2 ^ i) : (2 ^ i * a) ||| b = 2 ^ i * a + b :=
  (Nat.mul_add_lt_is_or h a).symm

/-- `floatToHalf` on a binary32 input in the half-subnormal range
(`103 ≤ c ≤ 112`, i.e. `-24 ≤ exp - 127 < -14`). -/
theorem floatToHalf_subnormalRange (s c M : Nat) (hs : s < 2) (hc : 103 ≤ c)
    (hc2 : c ≤ 112) (hM : M < 2 ^ 23) :
    floatToHalf (s * 2 ^ 31 + c * 2 ^ 23 + M) =
      s * 2 ^ 15 + ((2 ^ 23 + M) / 2 ^ (126 - c) + (2 ^ 23 + M) / 2 ^ (125 - c) % 2) := by
  have p31 : (2 : Nat) ^ 31 = 2147483648 := by norm_num
  have p23 : (2 : Nat) ^ 23 = 8388608 := by norm_num
  have hsign : (s * 2 ^ 31 + c * 2 ^ 23 + M) / 2 ^ 31 % 2 = s := by
    rw [p31, p23] at *
    omega
  have hexp : (s * 2 ^ 31 + c * 2 ^ 23 + M) / 2 ^ 23 % 256 = c := by
    rw [p31, p23] at *
    omega
  have hman : (s * 2 ^ 31 + c * 2 ^ 23 + M) % 2 ^ 23 = M := by
    rw [p31, p23] at *
    omega
  simp only [floatToHalf, hsign, hexp, hman]
  rw [if_neg (by omega), if_pos (by omega : c < 113), if_neg (by omega : ¬c < 103)]
  have hmor : M ||| 0x800000 = 2 ^ 23 + M := by
    have h1 : (0x800000 : Nat) = 2 ^ 23 * 1 := by norm_num
    rw [Nat.lor_comm, h1, lor_split 23 1 M hM]
    omega
  rw [hmor]
  have hsh1 : 113 - c + 13 = 126 - c := by omega
  have hsh2 : 113 - c + 12 = 125 - c := by omega
  rw [hsh1, hsh2]
  have hquot : (2 ^ 23 + M) / 2 ^ (126 - c) + (2 ^ 23 + M) / 2 ^ (125 - c) % 2 < 2 ^ 15 := by
    have h1 : 2 ^ 23 + M < 2 ^ (126 - c) * 2 ^ 10 := by
      calc 2 ^ 23 + M < 2 ^ 24 := by rw [p23] at *; omega
        _ ≤ 2 ^ (136 - c) := Nat.pow_le_pow_right (by norm_num) (by omega)
        _ = 2 ^ (126 - c) * 2 ^ 10 := by rw [← pow_add]; congr 1; omega
    have h2 : (2 ^ 23 + M) / 2 ^ (126 - c) < 2 ^ 10 := Nat.div_lt_of_lt_mul h1
    have h3 : (2 ^ 23 + M) / 2 ^ (125 - c) % 2 < 2 := Nat.mod_lt _ (by norm_num)
    calc (2 ^ 23 + M) / 2 ^ (126 - c) + (2 ^ 23 + M) / 2 ^ (125 - c) % 2
        < 2 ^ 10 + 2 := by omega
      _ < 2 ^ 15 := by norm_num
  rw [show s * 2 ^ 15 = 2 ^ 15 * s by ring, lor_split 15 s _ hquot]

/-- `floatToHalf` on a binary32 input in the half-normal range
(`113 ≤ c ≤ 142`, i.e. `-14 ≤ exp - 127 ≤ 15`). -/
theorem floatToHalf_normalRange (s c M : Nat) (hs : s < 2) (hc : 113 ≤ c)
    (hc2 : c ≤ 142) (hM : M < 2 ^ 23) :
    floatToHalf (s * 2 ^ 31 + c * 2 ^ 23 + M) =
      s * 2 ^ 15 ||| (c - 112) % 32 * 2 ^ 10 ||| (M / 2 ^ 13 + M / 2 ^ 12 % 2) := by
  have p31 : (2 : Nat) ^ 31 = 2147483648 := by norm_num
  have p23 : (2 : Nat) ^ 23 = 8388608 := by norm_num
  have hsign : (s * 2 ^ 31 + c * 2 ^ 23 + M) / 2 ^ 31 % 2 = s := by
    rw [p31, p23] at *
    omega
  have hexp : (s * 2 ^ 31 + c * 2 ^ 23 + M) / 2 ^ 23 % 256 = c := by
    rw [p31, p23] at *
    omega
  have hman : (s * 2 ^ 31 + c * 2 ^ 23 + M) % 2 ^ 23 = M := by
    rw [p31, p23] at *
    omega
  simp only [floatToHalf, hsign, hexp, hman]
  rw [if_neg (by omega), if_neg (by omega : ¬c < 113), if_neg (by omega : ¬142 < c)]

/-- Core round trip: `floatToHalf` inverts `f32BitsOfHalf` on every finite
binary16 pattern, presented by its fields. -/
theorem floatToHalf_f32BitsOfHalf_fields (s e m : Nat) (hs : s < 2) (he : e < 32)
    (hm : m < 2 ^ 10) (hfin : e ≠ 31) :
    floatToHalf (f32BitsOfHalf (s * 2 ^ 15 + e * 2 ^ 10 + m)) =
      s * 2 ^ 15 + e * 2 ^ 10 + m := by
  have p15 : (2 : Nat) ^ 15 = 32768 := by norm_num
  have p10 : (2 : Nat) ^ 10 = 1024 := by norm_num
  have hsign : (s * 2 ^ 15 + e * 2 ^ 10 + m) / 2 ^ 15 % 2 = s := by
    rw [p15, p10] at *
    omega
  have hexp : (s * 2 ^ 15 + e * 2 ^ 10 + m) / 2 ^ 10 % 32 = e := by
    rw [p15, p10] at *
    omega
  have hman : (s * 2 ^ 15 + e * 2 ^ 10 + m) % 2 ^ 10 = m := by
    rw [p15, p10] at *
    omega
  simp only [f32BitsOfHalf, hsign, hexp, hman]
  by_cases he0 : e = 0
  · subst he0
    by_cases hm0 : m = 0
    · subst hm0
      rw [if_pos rfl, if_pos rfl]
      interval_cases s
      · decide
      · decide
    · rw [if_pos rfl, if_neg hm0]
      have ht9 : Nat.log2 m ≤ 9 := by
        have := (Nat.log2_lt hm0).mpr (show m < 2 ^ 10 from hm)
        omega
      have htl : 2 ^ Nat.log2 m ≤ m := Nat.log2_self_le hm0
      have htu : m < 2 ^ (Nat.log2 m + 1) := Nat.lt_log2_self
      set t := Nat.log2 m with htdef
      clear_value t
      interval_cases t <;>
      · rw [floatToHalf_subnormalRange s _ _ hs (by norm_num) (by norm_num)
          (by norm_num at htl htu ⊢; omega)]
        norm_num at htl htu ⊢
        omega
  · have he1 : 1 ≤ e := by omega
    rw [if_neg he0, if_neg hfin]
    rw [floatToHalf_normalRange s (e + 112) (m * 2 ^ 13) hs (by omega) (by omega)
      (by rw [show (2:Nat)^23 = 8388608 by norm_num, show (2:Nat)^13 = 8192 by norm_num] at *; omega)]
    have h1 : (e + 112 - 112) % 32 = e := by omega
    have h2 : m * 2 ^ 13 / 2 ^ 13 = m := by
      rw [show (2:Nat)^13 = 8192 by norm_num]
      omega
    have h3 : m * 2 ^ 13 / 2 ^ 12 % 2 = 0 := by
      rw [show (2:Nat)^13 = 8192 by norm_num, show (2:Nat)^12 = 4096 by norm_num]
      omega
    rw [h1, h2, h3]
    have h4 : s * 2 ^ 15 ||| e * 2 ^ 10 = 2 ^ 15 * s + e * 2 ^ 10 := by
      rw [show s * 2 ^ 15 = 2 ^ 15 * s by ring]
      exact lor_split 15 s (e * 2 ^ 10) (by rw [p15, p10] at *; omega)
    rw [h4]
    have h5 : 2 ^ 15 * s + e * 2 ^ 10 = 2 ^ 10 * (32 * s + e) := by ring
    rw [h5, lor_split 10 (32 * s + e) (m + 0) (by rw [p10] at *; omega)]
    ring

/-- Round trip on every finite binary16 pattern. -/
theorem floatToHalf_f32BitsOfHalf (h : Nat) (hl : h < 2 ^ 16)
    (hf : h / 2 ^ 10 % 32 ≠ 31) : floatToHalf (f32BitsOfHalf h) = h := by
  have p16 : (2 : Nat) ^ 16 = 65536 := by norm_num
  have p15 : (2 : Nat) ^ 15 = 32768 := by norm_num
  have p10 : (2 : Nat) ^ 10 = 1024 := by norm_num
  obtain ⟨s, e, m, hs, he, hm, hdec⟩ :
      ∃ s e m, s < 2 ∧ e < 32 ∧ m < 2 ^ 10 ∧ h = s * 2 ^ 15 + e * 2 ^ 10 + m :=
    ⟨h / 2 ^ 15 % 2, h / 2 ^ 10 % 32, h % 2 ^ 10, by omega, by omega,
      by rw [p10]; omega, by rw [p15, p10]; omega⟩
  subst hdec
  have hexp : (s * 2 ^ 15 + e * 2 ^ 10 + m) / 2 ^ 10 % 32 = e := by
    rw [p15, p10] at *
    omega
  rw [hexp] at hf
  exact floatToHalf_f32BitsOfHalf_fields s e m hs he hm hf

/-- `floatToHalf` sends every binary32 NaN pattern to a binary16 NaN pattern. -/
theorem floatToHalf_nan (x : Nat) (h255 : x / 2 ^ 23 % 256 = 255)
    (hm : x % 2 ^ 23 ≠ 0) :
    floatToHalf x / 2 ^ 10 % 32 = 31 ∧ floatToHalf x % 2 ^ 10 ≠ 0 := by
  have p15 : (2 : Nat) ^ 15 = 32768 := by norm_num
  simp only [floatToHalf, h255, hm]
  rw [if_pos trivial, if_pos hm]
  have hs : x / 2 ^ 31 % 2 < 2 := Nat.mod_lt _ (by norm_num)
  rw [show x / 2 ^ 31 % 2 * 2 ^ 15 = 2 ^ 15 * (x / 2 ^ 31 % 2) by ring,
    lor_split 15 _ 0x7e00 (by norm_num)]
  rw [p15] at *
  constructor
  · omega
  · omega

/-- `f32BitsOfHalf` sends every binary16 NaN pattern to a binary32 NaN pattern
(the canonical quiet NaN the JS engine stores). -/
theorem f32BitsOfHalf_nan (h : Nat) (he : h / 2 ^ 10 % 32 = 31)
    (hm : h % 2 ^ 10 ≠ 0) :
    f32BitsOfHalf h / 2 ^ 23 % 256 = 255 ∧ f32BitsOfHalf h % 2 ^ 23 ≠ 0 := by
  simp only [f32BitsOfHalf, he]
  rw [if_neg (by norm_num : ¬(31 : Nat) = 0)]
  simp only [if_neg hm]
  norm_num

/-- C3: on every binary32 value exactly representable in binary16 (all finite
binary16 patterns, i.e. normals, subnormals and both signed zeros, re-encoded as
binary32 by `f32BitsOfHalf`), `floatToHalf` followed by `halfToFloat` (at the
bit level, `f32BitsOfHalf`) is the identity; `floatToHalf` maps `±Infinity` to
the binary16 infinities, every binary32 NaN pattern to a binary16 NaN, and those
patterns map back to `±Infinity` resp. NaN. -/
theorem halfFloat_roundTrip_exact :
    (∀ h : Nat, h < 2 ^ 16 → h / 2 ^ 10 % 32 ≠ 31 →
      floatToHalf (f32BitsOfHalf h) = h) ∧
    (∀ x : Nat, (∃ h : Nat, h < 2 ^ 16 ∧ h / 2 ^ 10 % 32 ≠ 31 ∧ x = f32BitsOfHalf h) →
      f32BitsOfHalf (floatToHalf x) = x) ∧
    (floatToHalf 0x7f800000 = 0x7c00 ∧ floatToHalf 0xff800000 = 0xfc00 ∧
      f32BitsOfHalf 0x7c00 = 0x7f800000 ∧ f32BitsOfHalf 0xfc00 = 0xff800000) ∧
    (∀ x : Nat, x / 2 ^ 23 % 256 = 255 → x % 2 ^ 23 ≠ 0 →
      floatToHalf x / 2 ^ 10 % 32 = 31 ∧ floatToHalf x % 2 ^ 10 ≠ 0) ∧
    (∀ h : Nat, h / 2 ^ 10 % 32 = 31 → h % 2 ^ 10 ≠ 0 →
      f32BitsOfHalf h / 2 ^ 23 % 256 = 255 ∧ f32BitsOfHalf h % 2 ^ 23 ≠ 0) := by
  refine ⟨floatToHalf_f32BitsOfHalf, ?_, by decide, floatToHalf_nan, f32BitsOfHalf_nan⟩
  rintro x ⟨h, hl, hf, rfl⟩
  rw [floatToHalf_f32BitsOfHalf h hl hf]

theorem halfFloat_roundTrip_exact_witness :
    floatToHalf (f32BitsOfHalf 0x3c01) = 0x3c01 ∧
    f32BitsOfHalf (floatToHalf (f32BitsOfHalf 0x8001)) = f32BitsOfHalf 0x8001 ∧
    (floatToHalf 0x7fc00001 / 2 ^ 10 % 32 = 31 ∧ floatToHalf 0x7fc00001 % 2 ^ 10 ≠ 0) ∧
    (f32BitsOfHalf 0x7e01 / 2 ^ 23 % 256 = 255 ∧ f32BitsOfHalf 0x7e01 % 2 ^ 23 ≠ 0) :=
  ⟨halfFloat_roundTrip_exact.1 0x3c01 (by norm_num) (by norm_num),
   halfFloat_roundTrip_exact.2.1 _ ⟨0x8001, by norm_num, by norm_num, rfl⟩,
   halfFloat_roundTrip_exact.2.2.2.1 0x7fc00001 (by norm_num) (by norm_num),
   halfFloat_roundTrip_exact.2.2.2.2 0x7e01 (by norm_num) (by norm_num)⟩

/-- C1: the claim states that `floatToHalf` computes the IEEE binary16 encoding
with round-to-nearest-even on the mantissa.  It does not: the rounded mantissa
is combined with the exponent field by bitwise or, so the round-up carry out of
the mantissa is lost whenever the exponent field's low bit is already set — the
largest binary32 value below 2 encodes as binary16 1.0 instead of 2.0 — and
mantissa ties are rounded up, not to even. -/
theorem floatToHalf_carry_and_tie_bug :
    floatToHalf 0x3fffffff = 0x3c00 ∧ ieeeFloatToHalf 0x3fffffff = 0x4000 ∧
    floatToHalf 0x3f801000 = 0x3c01 ∧ ieeeFloatToHalf 0x3f801000 = 0x3c00 ∧
    (0x3c00 : Nat) ≠ (0x4000 : Nat) := by
  decide

/-- C4: the decode size policy — `maxDim` is 1024/2048/4096 for low/medium/high
clamped to `[256, maxTextureSize]`, the decode dimensions are
`round(dim × min(1, maxDim / max(width, height)))` floored to at least 1, they
never exceed the source dimensions, and the 4096×2048 / low / 4096 instance
yields 1024×512. -/
theorem computeDecodeSize_policy (width height : Nat) (quality : PanoramaQuality)
    (maxTextureSize : Nat) (hw : 1 ≤ width) (hh : 1 ≤ height) :
    computeDecodeSize width height quality maxTextureSize =
      decodeSizeSpec width height quality maxTextureSize ∧
    (computeDecodeSize width height quality maxTextureSize).1 ≤ width ∧
    (computeDecodeSize width height quality maxTextureSize).2 ≤ height ∧
    computeDecodeSize 4096 2048 PanoramaQuality.low 4096 = (1024, 512) :=
  ⟨computeDecodeSize_eq_spec width height quality maxTextureSize hw,
   (computeDecodeSize_le width height quality maxTextureSize hw hh).1,
   (computeDecodeSize_le width height quality maxTextureSize hw hh).2,
   computeDecodeSize_example⟩

theorem computeDecodeSize_policy_witness :
    computeDecodeSize 4096 2048 PanoramaQuality.low 4096 =
      decodeSizeSpec 4096 2048 PanoramaQuality.low 4096 ∧
    (computeDecodeSize 4096 2048 PanoramaQuality.low 4096).1 ≤ 4096 ∧
    (computeDecodeSize 4096 2048 PanoramaQuality.low 4096).2 ≤ 2048 ∧
    computeDecodeSize 4096 2048 PanoramaQuality.low 4096 = (1024, 512) :=
  computeDecodeSize_policy 4096 2048 PanoramaQuality.low 4096 (by norm_num) (by norm_num)

/-! ## HDR output column mapping (src/unnamed/part_002, lines 261-283) -/

inductive HdrXSign
  | plusX
  | minusX
deriving DecidableEq

/-- Source column read for output column `x` in `decodeHDRToFloatRGB`
(src/unnamed/part_002, lines 269-271): `srcX = min (width - 1) ⌊x · stepX⌋` with
`stepX = width / decodeWidth` (line 249); the floating-point
`Math.floor(x * stepX)` is modelled as the exact `x * width / decodeWidth`
(`Nat` division); then `idx = srcX` when the resolution line declared `+X`, and
`width - 1 - srcX` when it declared `-X`. -/
def hdrSourceColumn (width decodeWidth x : Nat) (xSign : HdrXSign) : Nat :=
  let srcX := min (width - 1) (x * width / decodeWidth)
  if xSign = .plusX then srcX else width - 1 - srcX

/-- The source columns read by one output row, in output-column order
(the inner loop of lines 269-281). -/
def hdrRowSourceColumns (width decodeWidth : Nat) (xSign : HdrXSign) : List Nat :=
  (List.range decodeWidth).map (fun x => hdrSourceColumn width decodeWidth x xSign)

/-- The mapping as the claim words it: source column `⌊x·width/decodeWidth⌋`,
mirrored (replaced by `width - 1 - column`) exactly when the file declares
`+X`. -/
def hdrSourceColumnClaim (width decodeWidth x : Nat) (xSign : HdrXSign) : Nat :=
  let srcX := min (width - 1) (x * width / decodeWidth)
  if xSign = .plusX then width - 1 - srcX else srcX

/-- C2 counterexample: the code mirrors the source column when the file declares
`-X`, not `+X`.  At `width = 2, decodeWidth = 2, x = 1` with `+X` the code reads
column 1 while the claim predicts the mirrored column 0. -/
theorem hdrSourceColumn_claim_false :
    ¬ ∀ width decodeWidth x xSign, 0 < decodeWidth → x < decodeWidth →
      hdrSourceColumn width decodeWidth x xSign =
        hdrSourceColumnClaim width decodeWidth x xSign := by
  intro hcl
  have h := hcl 2 2 1 HdrXSign.plusX (by norm_num) (by norm_num)
  norm_num [hdrSourceColumn, hdrSourceColumnClaim] at h

/-- C2 amended: for every output row, output column `x` reads source column
`min (width-1) ⌊x·width/decodeWidth⌋`, and that index is horizontally mirrored
(replaced by `width - 1 - column`) exactly when the file's resolution line
declares `-X` (not mirrored when it declares `+X`). -/
theorem hdrSourceColumn_mirror_minusX (width decodeWidth x : Nat)
    (hx : x < decodeWidth) :
    (hdrRowSourceColumns width decodeWidth HdrXSign.plusX)[x]? =
      some (min (width - 1) (x * width / decodeWidth)) ∧
    (hdrRowSourceColumns width decodeWidth HdrXSign.minusX)[x]? =
      some (width - 1 - min (width - 1) (x * width / decodeWidth)) := by
  unfold hdrRowSourceColumns hdrSourceColumn
  constructor <;>
  · rw [List.getElem?_map, List.getElem?_range hx]
    simp

theorem hdrSourceColumn_mirror_minusX_witness :
    (hdrRowSourceColumns 8 4 HdrXSign.plusX)[1]? =
      some (min (8 - 1) (1 * 8 / 4)) ∧
    (hdrRowSourceColumns 8 4 HdrXSign.minusX)[1]? =
      some (8 - 1 - min (8 - 1) (1 * 8 / 4)) :=
  hdrSourceColumn_mirror_minusX 8 4 1 (by norm_num)

/-! ## Decoder client request table (src/unnamed/part_001, lines 54-100) -/

/-- An observable action of `PanoramaDecoderClient`: settling a pending promise
(identified by the token under which it was registered) or posting a request
message to the worker. -/
inductive ClientEffect
  | reject (token : Nat) (message : String)
  | resolve (token : Nat) (id : String)
  | post (id : String)
deriving DecidableEq

/-- The client's state: the `pending` map (`id -> {resolve, reject}`) in JS
`Map` insertion order, each promise pair represented by a registration token,
plus a counter supplying fresh tokens. -/
structure ClientState where
  pending : List (String × Nat)
  nextToken : Nat
deriving DecidableEq

/-- `this.pending.get(id)` -/
def lookupPending (st : ClientState) (id : String) : Option Nat :=
  (st.pending.find? (fun p => p.1 == id)).map (fun p => p.2)

/-- `this.pending.delete(id)` -/
def deletePending (pending : List (String × Nat)) (id : String) :
    List (String × Nat) :=
  pending.filter (fun p => !(p.1 == id))

/-- Embedding of `PanoramaDecoderClient.decode` (src/unnamed/part_001, lines
80-91): if an entry with the request's `id` already exists it is rejected with
`'Decode request replaced'` and deleted; then the new promise executor registers
a fresh entry under the `id` and the request message is posted to the worker
(transferring the buffer). -/
def clientDecode (st : ClientState) (id : String) :
    ClientState × List ClientEffect :=
  match lookupPending st id with
  | some t =>
      ({ pending := deletePending st.pending id ++ [(id, st.nextToken)],
         nextToken := st.nextToken + 1 },
       [ClientEffect.reject t "Decode request replaced", ClientEffect.post id])
  | none =>
      ({ pending := st.pending ++ [(id, st.nextToken)],
         nextToken := st.nextToken + 1 },
       [ClientEffect.post id])

/-- A worker response message: a `PanoramaDecodeResult` (has a `kind` field) or
a `PanoramaDecodeError` (has `message` and no `kind`), as discriminated by the
handler. -/
inductive WorkerResponse
  | result (id : String)
  | error (id : String) (message : String)
deriving DecidableEq

def responseId : WorkerResponse → String
  | .result id => id
  | .error id _ => id

/-- Embedding of the `worker.onmessage` handler (src/unnamed/part_001, lines
67-77): look up the entry for the message's `id` (ignore the message if there is
none), remove it, then reject it for an error-shaped message and resolve it
otherwise. -/
def clientOnMessage (st : ClientState) (msg : WorkerResponse) :
    ClientState × List ClientEffect :=
  match lookupPending st (responseId msg) with
  | none => (st, [])
  | some t =>
      ({ st with pending := deletePending st.pending (responseId msg) },
       match msg with
       | .error _ m => [ClientEffect.reject t m]
       | .result id => [ClientEffect.resolve t id])

theorem find_deletePending (l : List (String × Nat)) (id : String) :
    (deletePending l id).find? (fun p => p.1 == id) = none := by
  induction l with
  | nil => rfl
  | cons p rest ih =>
    unfold deletePending at *
    by_cases hp : p.1 == id
    · simp only [List.filter_cons, hp, Bool.not_true, if_neg]
      exact ih
    · have hp' : (p.1 == id) = false := by
        exact Bool.eq_false_iff.mpr hp
      simp only [List.filter_cons, hp', Bool.not_false, if_pos, List.find?_cons, hp']
      exact ih

theorem find?_append_none {α : Type} (l l' : List α) (f : α → Bool)
    (h : l.find? f = none) : (l ++ l').find? f = l'.find? f := by
  induction l with
  | nil => rfl
  | cons a rest ih =>
    rw [List.cons_append]
    rw [List.find?_cons] at h ⊢
    cases hf : f a with
    | true => rw [hf] at h; exact absurd h (by simp)
    | false =>
      rw [hf] at h
      exact ih h

theorem deletePending_idem (l : List (String × Nat)) (id : String) :
    deletePending (deletePending l id) id = deletePending l id := by
  unfold deletePending
  rw [List.filter_filter]
  congr 1
  funext p
  cases p.1 == id <;> rfl

/-- C6: submitting a decode request whose `id` is already outstanding first
rejects the prior entry with the `Superseded` error (`'Decode request
replaced'`) and removes it from the table, then registers the new entry and
posts the request message; afterwards the old entry is gone (its token is no
longer reachable) and a worker response for that `id` settles exactly the new
entry. -/
theorem decoderClient_supersedes (st : ClientState) (id : String) (t : Nat)
    (hout : lookupPending st id = some t)
    (hfresh : ∀ p ∈ st.pending, p.2 < st.nextToken) :
    (clientDecode st id).2 =
      [ClientEffect.reject t "Decode request replaced", ClientEffect.post id] ∧
    (∀ tok, (id, tok) ∈ (clientDecode st id).1.pending ↔ tok = st.nextToken) ∧
    t ≠ st.nextToken ∧
    lookupPending (clientDecode st id).1 id = some st.nextToken ∧
    clientOnMessage (clientDecode st id).1 (WorkerResponse.result id) =
      ({ pending := deletePending st.pending id, nextToken := st.nextToken + 1 },
        [ClientEffect.resolve st.nextToken id]) ∧
    (∀ m, clientOnMessage (clientDecode st id).1 (WorkerResponse.error id m) =
      ({ pending := deletePending st.pending id, nextToken := st.nextToken + 1 },
        [ClientEffect.reject st.nextToken m])) := by
  have hstep : clientDecode st id =
      ({ pending := deletePending st.pending id ++ [(id, st.nextToken)],
         nextToken := st.nextToken + 1 },
       [ClientEffect.reject t "Decode request replaced", ClientEffect.post id]) := by
    unfold clientDecode
    rw [hout]
  have hmem : ∀ tok, (id, tok) ∈ deletePending st.pending id ++ [(id, st.nextToken)] ↔
      tok = st.nextToken := by
    intro tok
    constructor
    · intro hm
      rcases List.mem_append.mp hm with hm | hm
      · exfalso
        have := List.of_mem_filter hm
        simp at this
      · simp at hm
        exact hm
    · intro hm
      subst hm
      exact List.mem_append.mpr (Or.inr (by simp))
  have htns : t ≠ st.nextToken := by
    unfold lookupPending at hout
    cases hfind : st.pending.find? (fun p => p.1 == id) with
    | none => rw [hfind] at hout; exact absurd hout (by simp)
    | some p =>
      rw [hfind] at hout
      have hpm : p ∈ st.pending := List.mem_of_find?_eq_some hfind
      have : p.2 = t := by simpa using hout
      have := hfresh p hpm
      omega
  have hlook : lookupPending (clientDecode st id).1 id = some st.nextToken := by
    rw [hstep]
    unfold lookupPending
    simp only
    rw [find?_append_none _ _ _ (find_deletePending st.pending id)]
    simp [List.find?_cons]
  refine ⟨by rw [hstep], by rw [hstep]; exact hmem, htns, hlook, ?_, ?_⟩
  · unfold clientOnMessage
    rw [show responseId (WorkerResponse.result id) = id from rfl, hlook]
    rw [hstep]
    simp only
    congr 1
    unfold deletePending
    rw [List.filter_append]
    simp [deletePending_idem, show (id == id) = true by simp]
  · intro m
    unfold clientOnMessage
    rw [show responseId (WorkerResponse.error id m) = id from rfl, hlook]
    rw [hstep]
    simp only
    congr 1
    unfold deletePending
    rw [List.filter_append]
    simp [show (id == id) = true by simp]

theorem decoderClient_supersedes_witness :
    (clientDecode ⟨[("a", 0)], 1⟩ "a").2 =
      [ClientEffect.reject 0 "Decode request replaced", ClientEffect.post "a"] ∧
    (∀ tok, ("a", tok) ∈ (clientDecode ⟨[("a", 0)], 1⟩ "a").1.pending ↔ tok = 1) ∧
    (0 : Nat) ≠ 1 ∧
    lookupPending (clientDecode ⟨[("a", 0)], 1⟩ "a").1 "a" = some 1 ∧
    clientOnMessage (clientDecode ⟨[("a", 0)], 1⟩ "a").1 (WorkerResponse.result "a") =
      ({ pending := deletePending [("a", 0)] "a", nextToken := 2 },
        [ClientEffect.resolve 1 "a"]) ∧
    (∀ m, clientOnMessage (clientDecode ⟨[("a", 0)], 1⟩ "a").1 (WorkerResponse.error "a" m) =
      ({ pending := deletePending [("a", 0)] "a", nextToken := 2 },
        [ClientEffect.reject 1 m])) :=
  decoderClient_supersedes ⟨[("a", 0)], 1⟩ "a" 0 (by simp [lookupPending])
    (by simp)

/-! ## EXR channel selection (src/unnamed/part_001, lines 252-296)

Channel names are modelled as lists of ASCII byte values (the names the decoder
compares against — `R`, `G`, `B`, `Y`, `.` — are all ASCII). -/

/-- ASCII bytes of a string literal (for stating examples). -/
def asciiBytes (s : String) : List Nat := s.toList.map Char.toNat

/-- JS `toUpperCase` on an ASCII byte. -/
def jsUpper (b : Nat) : Nat := if 97 ≤ b ∧ b ≤ 122 then b - 32 else b

/-- Split at the last `.` (byte 46): `some (layer, component)` when a dot
exists, mirroring `name.lastIndexOf('.')` (src/unnamed/part_001, line 253). -/
def splitLastDot : List Nat → Option (List Nat × List Nat)
  | [] => none
  | c :: rest =>
    match splitLastDot rest with
    | some (l, comp) => some (c :: l, comp)
    | none => if c = 46 then some ([], rest) else none

/-- Embedding of `splitChannelName` (src/unnamed/part_001, lines 252-256). -/
def splitChannelName (name : List Nat) : List Nat × List Nat :=
  match splitLastDot name with
  | some (l, c) => (l, c)
  | none => ([], name)

/-- One entry of the `layers` map (line 259): the layer name, the `order`
counter value assigned on first sight, and the component map (upper-cased
component key to first channel index) in insertion order. -/
structure LayerEntry where
  layer : List Nat
  order : Nat
  comps : List (List Nat × Nat)
deriving DecidableEq

/-- `entry.map.set(key, i)` guarded by `!entry.map.has(key)` (lines 271-273):
only the first channel index is recorded per upper-cased component key. -/
def addComp (comps : List (List Nat × Nat)) (key : List Nat) (i : Nat) :
    List (List Nat × Nat) :=
  if comps.any (fun p => p.1 == key) then comps else comps ++ [(key, i)]

/-- The grouping loop body (src/unnamed/part_001, lines 262-274) applied to the
`layers` map in JS `Map` insertion order: an existing layer is updated in place,
a new layer is appended with the next `order` value.  (The pattern-binding
`{layer, component}` of the source is rendered through projections.) -/
def addChannel (acc : List LayerEntry) (nextOrder : Nat) (name : List Nat)
    (i : Nat) : List LayerEntry × Nat :=
  let layer := (splitChannelName name).1
  let key := (splitChannelName name).2.map jsUpper
  if acc.any (fun e => e.layer == layer) then
    (acc.map (fun e =>
       if e.layer == layer then { e with comps := addComp e.comps key i } else e),
     nextOrder)
  else
    (acc ++ [⟨layer, nextOrder, [(key, i)]⟩], nextOrder + 1)

/-- The grouping loop (lines 259-274) over the channel list, carrying the
channel index `i` and the `nextOrder` counter. -/
def buildLayers : List (List Nat) → List LayerEntry → Nat → Nat → List LayerEntry
  | [], acc, _, _ => acc
  | name :: rest, acc, i, nextOrder =>
    buildLayers rest (addChannel acc nextOrder name i).1 (i + 1)
      (addChannel acc nextOrder name i).2

/-- Insertion into a list sorted by `order`. -/
def insertByOrder (e : LayerEntry) : List LayerEntry → List LayerEntry
  | [] => [e]
  | f :: rest =>
    if e.order ≤ f.order then e :: f :: rest else f :: insertByOrder e rest

/-- The `Array.from(layers.entries()).sort((a, b) => a[1].order - b[1].order)`
of line 276, as an insertion sort: the `order` keys are pairwise distinct, so
every comparison sort produces this same list. -/
def sortByOrder : List LayerEntry → List LayerEntry
  | [] => []
  | e :: rest => insertByOrder e (sortByOrder rest)

/-- `map.get(key)` on a component map. -/
def compLookup (comps : List (List Nat × Nat)) (key : List Nat) : Option Nat :=
  (comps.find? (fun p => p.1 == key)).map (fun p => p.2)

/-- `map.has(key)` on a component map. -/
def hasComp (comps : List (List Nat × Nat)) (key : List Nat) : Bool :=
  (compLookup comps key).isSome

/-- The result record of `selectChannels` (src/unnamed/part_001, lines
130-135): channel positions selected for each output. -/
structure SelectedChannels where
  r : Option Nat := none
  g : Option Nat := none
  b : Option Nat := none
  y : Option Nat := none
deriving DecidableEq

/-- `e.map.has('R') && e.map.has('G') && e.map.has('B')` -/
def entryHasRGB (e : LayerEntry) : Bool :=
  hasComp e.comps (asciiBytes "R") && hasComp e.comps (asciiBytes "G") &&
    hasComp e.comps (asciiBytes "B")

/-- `e.map.has('Y')` -/
def entryHasY (e : LayerEntry) : Bool := hasComp e.comps (asciiBytes "Y")

/-- Embedding of `selectChannels` (src/unnamed/part_001, lines 258-296). -/
def selectChannels (channels : List (List Nat)) : SelectedChannels :=
  let ordered := sortByOrder (buildLayers channels [] 0 0)
  match (ordered.find? (fun e => e.layer == [] && entryHasRGB e)).orElse
      (fun _ => ordered.find? entryHasRGB) with
  | some e =>
      { r := compLookup e.comps (asciiBytes "R"),
        g := compLookup e.comps (asciiBytes "G"),
        b := compLookup e.comps (asciiBytes "B") }
  | none =>
    match (ordered.find? (fun e => e.layer == [] && entryHasY e)).orElse
        (fun _ => ordered.find? entryHasY) with
    | some e => { y := compLookup e.comps (asciiBytes "Y") }
    | none => { r := some 0 }

/-- A grouped layer as the spec describes it: the layer name and its component
map (upper-cased component to first channel index). -/
abbrev SpecLayer := List Nat × List (List Nat × Nat)

def specLayerHasRGB (p : SpecLayer) : Bool :=
  hasComp p.2 (asciiBytes "R") && hasComp p.2 (asciiBytes "G") &&
    hasComp p.2 (asciiBytes "B")

def specLayerHasY (p : SpecLayer) : Bool := hasComp p.2 (asciiBytes "Y")

/-- Channel grouping as the spec words it: channels are split on their last `.`
into `(layer, component)` and grouped by layer in first-seen order, each
component keeping the first channel index that bears it. -/
def groupLayersSpec : List (List Nat) → List SpecLayer → Nat → List SpecLayer
  | [], acc, _ => acc
  | name :: rest, acc, i =>
    let layer := (splitChannelName name).1
    let key := (splitChannelName name).2.map jsUpper
    if acc.any (fun e => e.1 == layer) then
      groupLayersSpec rest
        (acc.map (fun e => if e.1 == layer then (e.1, addComp e.2 key i) else e))
        (i + 1)
    else
      groupLayersSpec rest (acc ++ [(layer, [(key, i)])]) (i + 1)

/-- Channel selection as the spec words it: prefer the default (empty) layer if
it has R, G and B, else the first-seen layer with R, G and B; else the default
layer's Y, else the first-seen layer's Y; else channel 0 as a scalar replicated
to all three outputs. -/
def selectChannelsSpec (channels : List (List Nat)) : SelectedChannels :=
  let layers := groupLayersSpec channels [] 0
  match (layers.find? (fun p => p.1 == [] && specLayerHasRGB p)).orElse
      (fun _ => layers.find? specLayerHasRGB) with
  | some p =>
      { r := compLookup p.2 (asciiBytes "R"),
        g := compLookup p.2 (asciiBytes "G"),
        b := compLookup p.2 (asciiBytes "B") }
  | none =>
    match (layers.find? (fun p => p.1 == [] && specLayerHasY p)).orElse
        (fun _ => layers.find? specLayerHasY) with
    | some p => { y := compLookup p.2 (asciiBytes "Y") }
    | none => { r := some 0 }

/-! ## EXR pixel reading and zip-transform scoring (src/unnamed/part_001,
lines 101-151, 298-344, 336-345, 383-444) -/

/-- EXR pixel types (src/unnamed/part_001, line 111): `0 = UINT`, `1 = HALF`,
`2 = FLOAT`. -/
inductive EXRPixelType
  | uint
  | half
  | float
deriving DecidableEq

/-- Embedding of `pixelByteSize` (lines 342-345). -/
def pixelByteSize : EXRPixelType → Nat
  | .half => 2
  | _ => 4

/-- A byte of the decompressed block.  All reads the decoder performs are in
bounds (the block was checked to have exactly `bytesPerLine × linesInBlock`
bytes), so the out-of-range default is never observable. -/
def byteAt (bytes : List Nat) (i : Nat) : Nat := bytes.getD i 0

/-- `DataView.getUint16(o, true)` -/
def readU16LE (bytes : List Nat) (i : Nat) : Nat :=
  byteAt bytes i + 256 * byteAt bytes (i + 1)

/-- `DataView.getUint32(o, true)` -/
def readU32LE (bytes : List Nat) (i : Nat) : Nat :=
  byteAt bytes i + 256 * byteAt bytes (i + 1) + 65536 * byteAt bytes (i + 2) +
    16777216 * byteAt bytes (i + 3)

/-- The exact value of `DataView.getFloat32` on a bit pattern: `some` of the
finite IEEE binary32 value, `none` for `±Infinity`/NaN (the scoring only tests
finiteness and magnitude). -/
def float32ValQ (bits : Nat) : Option ℚ :=
  let sign : Nat := bits / 2 ^ 31 % 2
  let exp : Nat := bits / 2 ^ 23 % 256
  let mantissa : Nat := bits % 2 ^ 23
  if exp = 255 then none
  else if exp = 0 then
    some ((if sign = 1 then -1 else 1) * (mantissa : ℚ) * (2 : ℚ) ^ (-149 : ℤ))
  else
    some ((if sign = 1 then -1 else 1) * (2 : ℚ) ^ ((exp : ℤ) - 127) *
      (1 + (mantissa : ℚ) / 2 ^ 23))

/-- Embedding of `decodePixel` (src/unnamed/part_001, lines 336-340). -/
def decodePixel (bytes : List Nat) (offset : Nat) : EXRPixelType → Option ℚ
  | .uint => some (readU32LE bytes offset)
  | .half => halfToFloatQ (readU16LE bytes offset)
  | .float => float32ValQ (readU32LE bytes offset)

/-- The per-call context of `decodeEXRToFloatRGB` that the block pipeline uses:
the data window width, the channel list (file order) and the selected channel
positions (lines 355, 380-394). -/
structure EXRLayout where
  width : Nat
  channels : List EXRPixelType
  selected : SelectedChannels
deriving DecidableEq

/-- `bytesPerLine` (lines 383-385). -/
def bytesPerLine (L : EXRLayout) : Nat :=
  (L.channels.map fun c => L.width * pixelByteSize c).sum

/-- `channelBaseWithinLine` (lines 387-394): prefix sums of the per-channel
line sizes. -/
def channelBaseWithinLine (L : EXRLayout) (pos : Nat) : Nat :=
  ((L.channels.take pos).map fun c => L.width * pixelByteSize c).sum

/-- `readValueAt` (lines 407-414): read the pixel at column `x` of channel
`channelPos` within the line starting at `lineBase`.  (The source indexes
`channelOrder[channelPos]!`; the selected positions are always in range, so the
`none` fallback is never observable.) -/
def readValueAt (L : EXRLayout) (bytes : List Nat) (lineBase channelPos x : Nat) :
    Option ℚ :=
  match L.channels.get? channelPos with
  | some ch =>
      decodePixel bytes
        (lineBase + channelBaseWithinLine L channelPos + x * pixelByteSize ch) ch
  | none => none

/-- `readRGB` (lines 416-430): the selected RGB triple, else the selected `Y`
replicated, else channel 0 replicated. -/
def exrReadRGB (L : EXRLayout) (bytes : List Nat) (lineBase x : Nat) :
    Option ℚ × Option ℚ × Option ℚ :=
  match L.selected.r, L.selected.g, L.selected.b with
  | some r, some g, some b =>
      (readValueAt L bytes lineBase r x, readValueAt L bytes lineBase g x,
       readValueAt L bytes lineBase b x)
  | _, _, _ =>
    match L.selected.y with
    | some y =>
        (readValueAt L bytes lineBase y x, readValueAt L bytes lineBase y x,
         readValueAt L bytes lineBase y x)
    | none =>
        (readValueAt L bytes lineBase 0 x, readValueAt L bytes lineBase 0 x,
         readValueAt L bytes lineBase 0 x)

/-- The sampled columns of `scoreUncompressed` (lines 403-405, 435):
`for (x = 0; x < width; x += step)` with `step = max(1, ⌊width / min(width, 24)⌋)`. -/
def sampleColumns (width : Nat) : List Nat :=
  let sampleXs := min width 24
  let step := max 1 (width / sampleXs)
  (List.range ((width + step - 1) / step)).map fun k => k * step

/-- `Number.isFinite(v) && Math.abs(v) < 1e6` (lines 438-440). -/
def isGoodSample : Option ℚ → Bool
  | some q => decide (|q| < 1000000)
  | none => false

/-- Embedding of `scoreUncompressed` (src/unnamed/part_001, lines 396-444):
sample a grid of decoded pixel values (two lines for multi-line blocks, one
otherwise) and return the fraction that are finite with magnitude below `1e6`. -/
def scoreUncompressed (L : EXRLayout) (uncompressed : List Nat)
    (linesInBlock : Nat) : ℚ :=
  let lineIdxs := if 1 < linesInBlock then [0, linesInBlock / 2] else [0]
  let samples := lineIdxs.flatMap fun li =>
    (sampleColumns L.width).map fun x =>
      exrReadRGB L uncompressed (li * bytesPerLine L) x
  let score := (samples.map fun s =>
    (if isGoodSample s.1 then 1 else 0) + (if isGoodSample s.2.1 then 1 else 0) +
      (if isGoodSample s.2.2 then 1 else 0)).sum
  if 0 < 3 * samples.length then (score : ℚ) / ((3 * samples.length : Nat) : ℚ)
  else 0

/-- Embedding of `unshuffle` (src/unnamed/part_001, lines 298-312): even output
positions take the first half of the input, odd positions the second half. -/
def unshuffle (input : List Nat) : List Nat :=
  (List.range input.length).map fun i =>
    if i % 2 = 0 then byteAt input (i / 2)
    else byteAt input ((input.length + 1) / 2 + i / 2)

/-- The cumulative delta of `reversePredictor` (lines 314-318) after the first
byte; `(a + b - 128) & 0xff` on the JS values involved equals
`(a + b + 128) % 256`. -/
def reversePredictorGo (prev : Nat) : List Nat → List Nat
  | [] => []
  | x :: rest => ((x + prev + 128) % 256) :: reversePredictorGo ((x + prev + 128) % 256) rest

/-- Embedding of `reversePredictor` / `reversePredictorCopy` (lines 314-324):
`data[i] = (data[i] + data[i-1] - 128) & 0xff` applied cumulatively from
index 1. -/
def reversePredictor : List Nat → List Nat
  | [] => []
  | x :: rest => x :: reversePredictorGo x rest

/-- The two candidate byte-transform orderings (line 446). -/
inductive ZipTransform
  | predictorThenUnshuffle
  | unshuffleThenPredictor
deriving DecidableEq

/-- Lines 530-535: apply the chosen ordering to an inflated block. -/
def applyZipTransform : ZipTransform → List Nat → List Nat
  | .predictorThenUnshuffle, d => unshuffle (reversePredictor d)
  | .unshuffleThenPredictor, d =>
      reversePredictor (unshuffle d)

/-- Lines 520-528: produce both candidate orderings of the block, score each,
and keep the higher-scoring one (ties prefer predictor-then-unshuffle). -/
def decideZipTransform (L : EXRLayout) (inflated : List Nat)
    (linesInBlock : Nat) : ZipTransform :=
  if scoreUncompressed L (reversePredictor (unshuffle inflated)) linesInBlock ≤
      scoreUncompressed L (unshuffle (reversePredictor inflated)) linesInBlock
  then .predictorThenUnshuffle else .unshuffleThenPredictor

/-- A compressed scanline block as it reaches the zip branch of the block loop:
the DEFLATE-inflated bytes (inflation is performed by the platform's
`DecompressionStream`, outside this repository) and the block's line count
`min(blockLines, height - y0)` (lines 507, 517). -/
structure CompressedBlock where
  inflated : List Nat
  linesInBlock : Nat
deriving DecidableEq

inductive EXRChunkErr
  | invalidChunkSize
deriving DecidableEq

/-- One compressed block through lines 518-535: the size check
(`inflated.byteLength !== expectedBytes` throws `'Invalid EXR chunk size'`),
the once-only transform decision, and the transform application.  Returns the
transform used on this block, the uncompressed bytes, and the new
`zipTransform` state. -/
def processCompressedBlock (L : EXRLayout) (st : Option ZipTransform)
    (b : CompressedBlock) :
    Except EXRChunkErr (ZipTransform × List Nat × Option ZipTransform) :=
  if b.inflated.length ≠ bytesPerLine L * b.linesInBlock then
    .error .invalidChunkSize
  else
    match st with
    | some t => .ok (t, applyZipTransform t b.inflated, some t)
    | none =>
        .ok (decideZipTransform L b.inflated b.linesInBlock,
          applyZipTransform (decideZipTransform L b.inflated b.linesInBlock) b.inflated,
          some (decideZipTransform L b.inflated b.linesInBlock))

/-- The compressed blocks of one decode call in loop order (lines 496-536,
restricted to the compressed branch — blocks with `compression === 'none'`
never touch `zipTransform`), returning the transform used for each block; a
chunk-size error aborts the call. -/
def runCompressedBlocks (L : EXRLayout) :
    Option ZipTransform → List CompressedBlock → List ZipTransform
  | _, [] => []
  | st, b :: rest =>
    match processCompressedBlock L st b with
    | .error _ => []
    | .ok (t, _, st') => t :: runCompressedBlocks L st' rest

/-- Forgetting the `order` counter of a layer entry. -/
def projLayer (e : LayerEntry) : SpecLayer := (e.layer, e.comps)

theorem sortByOrder_eq_self (l : List LayerEntry)
    (h : l.Pairwise (fun a b => a.order < b.order)) : sortByOrder l = l := by
  induction l with
  | nil => rfl
  | cons e rest ih =>
    show insertByOrder e (sortByOrder rest) = e :: rest
    rw [ih (List.Pairwise.of_cons h)]
    cases rest with
    | nil => rfl
    | cons f rest' =>
      have hef : e.order < f.order := (List.pairwise_cons.mp h).1 f (by simp)
      simp only [insertByOrder]
      rw [if_pos (Nat.le_of_lt hef)]

theorem buildLayers_pairwise (names : List (List Nat)) :
    ∀ acc i n, acc.Pairwise (fun a b => a.order < b.order) →
      (∀ e ∈ acc, e.order < n) →
      (buildLayers names acc i n).Pairwise (fun a b => a.order < b.order) := by
  induction names with
  | nil => intro acc i n h _; exact h
  | cons name rest ih =>
    intro acc i n hpw hbd
    show (buildLayers rest (addChannel acc n name i).1 (i + 1)
      (addChannel acc n name i).2).Pairwise _
    unfold addChannel
    by_cases hany : (acc.any fun e => e.layer == (splitChannelName name).1) = true
    · rw [if_pos hany]
      have horder : ∀ x : LayerEntry,
          (if x.layer == (splitChannelName name).1 then
            { x with comps := addComp x.comps ((splitChannelName name).2.map jsUpper) i }
           else x).order = x.order := by
        intro x
        split <;> rfl
      refine ih _ (i + 1) n (List.pairwise_map.mpr (hpw.imp ?_)) ?_
      · intro a b hab
        rw [horder a, horder b]
        exact hab
      · intro e he
        obtain ⟨a, ha, rfl⟩ := List.mem_map.mp he
        rw [horder a]
        exact hbd a ha
    · rw [if_neg hany]
      refine ih _ (i + 1) (n + 1) ?_ ?_
      · refine List.pairwise_append.mpr ⟨hpw, List.pairwise_singleton _ _, ?_⟩
        intro a ha b hb
        have hb' : b = ⟨(splitChannelName name).1, n,
            [((splitChannelName name).2.map jsUpper, i)]⟩ := by simpa using hb
        subst hb'
        exact hbd a ha
      · intro e he
        rcases List.mem_append.mp he with he | he
        · exact Nat.lt_succ_of_lt (hbd e he)
        · have he' : e = ⟨(splitChannelName name).1, n,
              [((splitChannelName name).2.map jsUpper, i)]⟩ := by simpa using he
          subst he'
          exact Nat.lt_succ_self n

theorem any_projLayer (l : List LayerEntry) (L : List Nat) :
    ((l.map projLayer).any fun e => e.1 == L) = l.any fun e => e.layer == L := by
  induction l with
  | nil => rfl
  | cons a rest ih =>
    simp only [List.map_cons, List.any_cons, ih]
    rfl

theorem buildLayers_proj (names : List (List Nat)) :
    ∀ acc i n, (buildLayers names acc i n).map projLayer =
      groupLayersSpec names (acc.map projLayer) i := by
  induction names with
  | nil => intro acc i n; rfl
  | cons name rest ih =>
    intro acc i n
    show (buildLayers rest (addChannel acc n name i).1 (i + 1)
        (addChannel acc n name i).2).map projLayer =
      groupLayersSpec (name :: rest) (acc.map projLayer) i
    unfold addChannel groupLayersSpec
    dsimp only
    rw [any_projLayer]
    by_cases hany : (acc.any fun e => e.layer == (splitChannelName name).1) = true
    · rw [if_pos hany, if_pos hany]
      dsimp only
      rw [ih]
      congr 1
      rw [List.map_map, List.map_map]
      congr 1
      funext e
      simp only [Function.comp]
      by_cases hl : (e.layer == (splitChannelName name).1) = true
      · rw [if_pos hl, if_pos (show ((projLayer e).1 == (splitChannelName name).1) = true from hl)]
        rfl
      · rw [if_neg hl, if_neg (show ¬((projLayer e).1 == (splitChannelName name).1) = true from hl)]
    · rw [if_neg hany, if_neg hany]
      dsimp only
      rw [ih]
      congr 1
      rw [List.map_append]
      rfl

/-- C5: for every EXR channel list, `selectChannels` behaves as the spec
describes — split each name on its last `.` into `(layer, component)`, group by
layer in first-seen order, and prefer default-layer RGB, then first-seen RGB,
then default-layer Y, then first-seen Y, then channel 0 as a replicated scalar —
and on the three example inputs it selects the default RGB layer, layer `A`'s
RGB over the top-level `Y`, and the grayscale fallback respectively. -/
theorem selectChannels_preference :
    (∀ channels, selectChannels channels = selectChannelsSpec channels) ∧
    selectChannels [asciiBytes "R", asciiBytes "G", asciiBytes "B"] =
      ⟨some 0, some 1, some 2, none⟩ ∧
    selectChannels [asciiBytes "A.R", asciiBytes "A.G", asciiBytes "A.B",
      asciiBytes "Y"] = ⟨some 0, some 1, some 2, none⟩ ∧
    selectChannels [asciiBytes "data"] = ⟨some 0, none, none, none⟩ ∧
    (∀ (L : EXRLayout) (bytes : List Nat) (lineBase x : Nat),
      L.selected = ⟨some 0, none, none, none⟩ →
      ∃ v, exrReadRGB L bytes lineBase x = (v, v, v)) := by
  have hrep : ∀ (L : EXRLayout) (bytes : List Nat) (lineBase x : Nat),
      L.selected = ⟨some 0, none, none, none⟩ →
      ∃ v, exrReadRGB L bytes lineBase x = (v, v, v) := by
    intro L bytes lineBase x hsel
    simp only [exrReadRGB, hsel]
    exact ⟨_, rfl⟩
  refine ⟨?_, by decide, by decide, by decide, hrep⟩
  intro channels
  unfold selectChannels selectChannelsSpec
  rw [sortByOrder_eq_self _ (buildLayers_pairwise channels [] 0 0 (by simp) (by simp))]
  rw [show groupLayersSpec channels [] 0 =
    (buildLayers channels [] 0 0).map projLayer from (buildLayers_proj channels [] 0 0).symm]
  dsimp only
  rw [List.find?_map, List.find?_map, List.find?_map, List.find?_map]
  rw [show ((fun p : SpecLayer => p.1 == [] && specLayerHasRGB p) ∘ projLayer) =
      (fun e : LayerEntry => e.layer == [] && entryHasRGB e) from rfl,
    show (specLayerHasRGB ∘ projLayer) = entryHasRGB from rfl,
    show ((fun p : SpecLayer => p.1 == [] && specLayerHasY p) ∘ projLayer) =
      (fun e : LayerEntry => e.layer == [] && entryHasY e) from rfl,
    show (specLayerHasY ∘ projLayer) = entryHasY from rfl]
  have hmap_orElse : ∀ o o' : Option LayerEntry,
      ((o.map projLayer).orElse fun _ => o'.map projLayer) =
        (o.orElse fun _ => o').map projLayer := by
    intro o o'
    cases o <;> rfl
  rw [hmap_orElse, hmap_orElse]
  cases hx : ((buildLayers channels [] 0 0).find?
      (fun e => e.layer == [] && entryHasRGB e)).orElse
      (fun _ => (buildLayers channels [] 0 0).find? entryHasRGB) with
  | some e => rfl
  | none =>
    cases hy : ((buildLayers channels [] 0 0).find?
        (fun e => e.layer == [] && entryHasY e)).orElse
        (fun _ => (buildLayers channels [] 0 0).find? entryHasY) with
    | some e => rfl
    | none => rfl

theorem selectChannels_preference_witness :
    ∃ v, exrReadRGB ⟨1, [EXRPixelType.uint], ⟨some 0, none, none, none⟩⟩
      [0, 0, 0, 0] 0 0 = (v, v, v) :=
  selectChannels_preference.2.2.2.2
    ⟨1, [EXRPixelType.uint], ⟨some 0, none, none, none⟩⟩ [0, 0, 0, 0] 0 0 rfl

theorem runCompressedBlocks_some (L : EXRLayout) (t : ZipTransform)
    (blocks : List CompressedBlock) :
    runCompressedBlocks L (some t) blocks =
      List.replicate (runCompressedBlocks L (some t) blocks).length t := by
  induction blocks with
  | nil => rfl
  | cons b rest ih =>
    by_cases hsz : b.inflated.length ≠ bytesPerLine L * b.linesInBlock
    · have hval : runCompressedBlocks L (some t) (b :: rest) = [] := by
        show (match processCompressedBlock L (some t) b with
          | .error _ => []
          | .ok (t', _, st') => t' :: runCompressedBlocks L st' rest) = _
        unfold processCompressedBlock
        rw [if_pos hsz]
      rw [hval]
      rfl
    · have hval : runCompressedBlocks L (some t) (b :: rest) =
          t :: runCompressedBlocks L (some t) rest := by
        show (match processCompressedBlock L (some t) b with
          | .error _ => []
          | .ok (t', _, st') => t' :: runCompressedBlocks L st' rest) = _
        unfold processCompressedBlock
        rw [if_neg hsz]
      rw [hval, List.length_cons, List.replicate_succ, ← ih]

/-- C7: within one EXR decode call the zip byte-transform ordering is decided
exactly once, on the first compressed block — both candidate orderings are
produced and scored (`decideZipTransform` computes
`scoreUncompressed` of `unshuffle (reversePredictor ·)` and of
`reversePredictor (unshuffle ·)`, preferring the first on ties) — and every
compressed block of the call, the first included, is decoded with that same
ordering. -/
theorem zipTransform_decided_once (L : EXRLayout) (b : CompressedBlock)
    (rest : List CompressedBlock)
    (hsz : b.inflated.length = bytesPerLine L * b.linesInBlock) :
    runCompressedBlocks L none (b :: rest) =
      List.replicate (runCompressedBlocks L none (b :: rest)).length
        (decideZipTransform L b.inflated b.linesInBlock) ∧
    decideZipTransform L b.inflated b.linesInBlock =
      (if scoreUncompressed L (reversePredictor (unshuffle b.inflated)) b.linesInBlock ≤
          scoreUncompressed L (unshuffle (reversePredictor b.inflated)) b.linesInBlock
       then ZipTransform.predictorThenUnshuffle
       else ZipTransform.unshuffleThenPredictor) := by
  refine ⟨?_, rfl⟩
  have hval : runCompressedBlocks L none (b :: rest) =
      decideZipTransform L b.inflated b.linesInBlock ::
        runCompressedBlocks L (some (decideZipTransform L b.inflated b.linesInBlock)) rest := by
    show (match processCompressedBlock L none b with
      | .error _ => []
      | .ok (t, _, st') => t :: runCompressedBlocks L st' rest) = _
    unfold processCompressedBlock
    rw [if_neg (by omega : ¬b.inflated.length ≠ bytesPerLine L * b.linesInBlock)]
  rw [hval, List.length_cons, List.replicate_succ, ← runCompressedBlocks_some]

theorem zipTransform_decided_once_witness :
    runCompressedBlocks ⟨1, [EXRPixelType.uint], ⟨some 0, none, none, none⟩⟩
        none [⟨[0, 0, 0, 0], 1⟩] =
      List.replicate (runCompressedBlocks
          ⟨1, [EXRPixelType.uint], ⟨some 0, none, none, none⟩⟩
          none [⟨[0, 0, 0, 0], 1⟩]).length
        (decideZipTransform ⟨1, [EXRPixelType.uint], ⟨some 0, none, none, none⟩⟩
          [0, 0, 0, 0] 1) ∧
    decideZipTransform ⟨1, [EXRPixelType.uint], ⟨some 0, none, none, none⟩⟩
        [0, 0, 0, 0] 1 =
      (if scoreUncompressed ⟨1, [EXRPixelType.uint], ⟨some 0, none, none, none⟩⟩
          (reversePredictor (unshuffle [0, 0, 0, 0])) 1 ≤
          scoreUncompressed ⟨1, [EXRPixelType.uint], ⟨some 0, none, none, none⟩⟩
          (unshuffle (reversePredictor [0, 0, 0, 0])) 1
       then ZipTransform.predictorThenUnshuffle
       else ZipTransform.unshuffleThenPredictor) :=
  zipTransform_decided_once ⟨1, [EXRPixelType.uint], ⟨some 0, none, none, none⟩⟩
    ⟨[0, 0, 0, 0], 1⟩ [] (by decide)

/-! ## HDR scanline decoding (src/unnamed/part_002, lines 127-208) -/

/-- The errors the HDR module can throw (src/unnamed/part_002 and
src/unnamed/part_004): the strings are `'Unexpected end of HDR data'`,
`'Unexpected end of HDR RLE'`, the `RangeError` a `TypedArray.set` past the
target's end raises, `'Invalid HDR resolution'`, `'Unsupported HDR format'`,
`'Missing HDR resolution'` and `'Invalid HDR signature'`. -/
inductive HdrError
  | unexpectedEofData
  | unexpectedEofRLE
  | rangeError
  | invalidResolution
  | unsupportedFormat
  | missingResolution
  | invalidSignature
deriving DecidableEq

/-- Overwrite `out[start .. start + vals.length)` with `vals` (callers
guarantee the range fits, matching `TypedArray.set` / clamped `fill`). -/
def listSetRange (out : List Nat) (start : Nat) (vals : List Nat) : List Nat :=
  out.take start ++ vals ++ out.drop (start + vals.length)

/-- Embedding of the `decodeRLEChannel` loop (src/unnamed/part_002, lines
142-171) with an explicit iteration budget `fuel` (`none` = budget exhausted;
`decodeRLEChannelF_isSome` shows `bytes.length + 1` always suffices).
Per iteration: stop once `x` reaches `width`; a read past the buffer end throws
`'Unexpected end of HDR RLE'`; a count byte above 128 is a repeat run of
`count - 128` copies of the next byte (`out.fill` clamps at the scanline end);
a count byte in `1..128` is a literal run, whose `out.set` raises a
`RangeError` when the run extends past the scanline width; a zero count byte
consumes one byte and produces nothing. -/
def decodeRLEChannelF : Nat → List Nat → Nat → Nat → Nat → List Nat →
    Option (Except HdrError (List Nat × Nat))
  | 0, _, _, _, _, _ => none
  | fuel + 1, bytes, offset, width, x, out =>
    if width ≤ x then some (.ok (out, offset))
    else if bytes.length ≤ offset then some (.error .unexpectedEofRLE)
    else if 128 < byteAt bytes offset then
      if bytes.length ≤ offset + 1 then some (.error .unexpectedEofRLE)
      else
        decodeRLEChannelF fuel bytes (offset + 2) width
          (x + (byteAt bytes offset - 128))
          (listSetRange out x
            (List.replicate (min (byteAt bytes offset - 128) (width - x))
              (byteAt bytes (offset + 1))))
    else if 0 < byteAt bytes offset then
      if bytes.length < offset + 1 + byteAt bytes offset then
        some (.error .unexpectedEofRLE)
      else if width < x + byteAt bytes offset then some (.error .rangeError)
      else
        decodeRLEChannelF fuel bytes (offset + 1 + byteAt bytes offset) width
          (x + byteAt bytes offset)
          (listSetRange out x ((bytes.drop (offset + 1)).take (byteAt bytes offset)))
    else decodeRLEChannelF fuel bytes (offset + 1) width x out

/-- `decodeRLEChannel` with the always-sufficient budget; the `getD` default is
unreachable. -/
def decodeRLEChannel (bytes : List Nat) (offset width : Nat) (out : List Nat) :
    Except HdrError (List Nat × Nat) :=
  (decodeRLEChannelF (bytes.length + 1) bytes offset width 0 out).getD
    (.error .unexpectedEofRLE)

/-- Embedding of `decodeOldPixels` (src/unnamed/part_002, lines 127-140):
`width * 4` raw bytes, `'Unexpected end of HDR data'` past the buffer end; the
result replaces the whole scanline buffer. -/
def decodeOldPixels (bytes : List Nat) (offset width : Nat) :
    Except HdrError (List Nat × Nat) :=
  if bytes.length < offset + width * 4 then .error .unexpectedEofData
  else .ok ((bytes.drop offset).take (width * 4), offset + width * 4)

/-- Embedding of `decodeScanline` (src/unnamed/part_002, lines 173-208): old
format for widths outside `[8, 0x7fff]` or without the `(2, 2, hi, lo)` RLE
marker, otherwise four RLE planes (r, g, b, e — each a `width`-long subarray of
the scanline buffer, returned here concatenated; the buffer's previous contents
are fully overwritten on success). -/
def decodeScanline (bytes : List Nat) (offset width : Nat) :
    Except HdrError (List Nat × Nat) :=
  if width < 8 ∨ 0x7fff < width then decodeOldPixels bytes offset width
  else if bytes.length < offset + 4 then .error .unexpectedEofData
  else if byteAt bytes offset = 2 ∧ byteAt bytes (offset + 1) = 2 ∧
      byteAt bytes (offset + 2) * 256 + byteAt bytes (offset + 3) = width then
    match decodeRLEChannel bytes (offset + 4) width (List.replicate width 0) with
    | .error e => .error e
    | .ok (r, off1) =>
      match decodeRLEChannel bytes off1 width (List.replicate width 0) with
      | .error e => .error e
      | .ok (g, off2) =>
        match decodeRLEChannel bytes off2 width (List.replicate width 0) with
        | .error e => .error e
        | .ok (bl, off3) =>
          match decodeRLEChannel bytes off3 width (List.replicate width 0) with
          | .error e => .error e
          | .ok (ex, off4) => .ok (r ++ g ++ bl ++ ex, off4)
  else decodeOldPixels bytes offset width

theorem decodeRLEChannelF_isSome (fuel : Nat) :
    ∀ (bytes : List Nat) (offset width x : Nat) (out : List Nat),
      bytes.length + 1 ≤ fuel + offset → 1 ≤ fuel →
      (decodeRLEChannelF fuel bytes offset width x out).isSome = true := by
  induction fuel with
  | zero => intro _ _ _ _ _ _ h1; omega
  | succ fuel ih =>
    intro bytes offset width x out hb _
    unfold decodeRLEChannelF
    split_ifs with h1 h2 h3 h4 h5 h6 h7
    · rfl
    · rfl
    · rfl
    · exact ih bytes (offset + 2) width _ _ (by omega) (by omega)
    · rfl
    · rfl
    · exact ih bytes (offset + 1 + byteAt bytes offset) width _ _ (by omega) (by omega)
    · exact ih bytes (offset + 1) width x out (by omega) (by omega)

/-- C9: `decodeRLEChannel` terminates for every input buffer, starting offset
and width: `bytes.length + 1` loop iterations always suffice because every
iteration either finishes (fills the width or throws) or strictly advances the
read offset — in particular a zero-valued count byte consumes one byte and
produces no pixels — so the loop never runs forever. -/
theorem decodeRLEChannel_terminating (bytes : List Nat) (offset width x : Nat)
    (out : List Nat) :
    (decodeRLEChannelF (bytes.length + 1) bytes offset width x out).isSome = true :=
  decodeRLEChannelF_isSome (bytes.length + 1) bytes offset width x out
    (by omega) (by omega)

theorem decodeRLEChannelF_errors (fuel : Nat) :
    ∀ (bytes : List Nat) (offset width x : Nat) (out : List Nat) (e : HdrError),
      decodeRLEChannelF fuel bytes offset width x out = some (.error e) →
      e = HdrError.unexpectedEofRLE ∨ e = HdrError.rangeError := by
  induction fuel with
  | zero =>
    intro bytes offset width x out e h
    exact absurd h (by simp [decodeRLEChannelF])
  | succ fuel ih =>
    intro bytes offset width x out e h
    unfold decodeRLEChannelF at h
    split_ifs at h with h1 h2 h3 h4 h5 h6 h7
    · simp at h
    · simp only [Option.some.injEq, Except.error.injEq] at h
      exact Or.inl h.symm
    · simp only [Option.some.injEq, Except.error.injEq] at h
      exact Or.inl h.symm
    · exact ih _ _ _ _ _ _ h
    · simp only [Option.some.injEq, Except.error.injEq] at h
      exact Or.inl h.symm
    · simp only [Option.some.injEq, Except.error.injEq] at h
      exact Or.inr h.symm
    · exact ih _ _ _ _ _ _ h
    · exact ih _ _ _ _ _ _ h

theorem decodeRLEChannel_errors (bytes : List Nat) (offset width : Nat)
    (out : List Nat) (e : HdrError)
    (h : decodeRLEChannel bytes offset width out = .error e) :
    e = HdrError.unexpectedEofRLE ∨ e = HdrError.rangeError := by
  unfold decodeRLEChannel at h
  cases hf : decodeRLEChannelF (bytes.length + 1) bytes offset width 0 out with
  | none =>
    rw [hf] at h
    simp only [Option.getD, Except.error.injEq] at h
    exact Or.inl h.symm
  | some r =>
    rw [hf] at h
    cases r with
    | ok v => exact absurd h (by simp [Option.getD])
    | error e' =>
      simp only [Option.getD, Except.error.injEq] at h
      rw [h] at hf
      exact decodeRLEChannelF_errors _ _ _ _ _ _ _ hf

theorem decodeOldPixels_eof (bytes : List Nat) (offset width : Nat) (e : HdrError) :
    decodeOldPixels bytes offset width = .error e ↔
      (e = HdrError.unexpectedEofData ∧ bytes.length < offset + width * 4) := by
  unfold decodeOldPixels
  split_ifs with h
  · constructor
    · intro he
      simp only [Except.error.injEq] at he
      exact ⟨he.symm, h⟩
    · intro ⟨he, _⟩
      rw [he]
  · constructor
    · intro he
      exact absurd he (by simp)
    · intro ⟨_, hlen⟩
      exact absurd hlen h

theorem decodeScanline_errors (bytes : List Nat) (offset width : Nat)
    (e : HdrError) (h : decodeScanline bytes offset width = .error e) :
    e = HdrError.unexpectedEofData ∨ e = HdrError.unexpectedEofRLE ∨
      e = HdrError.rangeError := by
  unfold decodeScanline at h
  split_ifs at h with h1 h2 h3
  · exact Or.inl ((decodeOldPixels_eof bytes offset width e).mp h).1
  · simp only [Except.error.injEq] at h
    exact Or.inl h.symm
  · cases hr1 : decodeRLEChannel bytes (offset + 4) width (List.replicate width 0) with
    | error e1 =>
      rw [hr1] at h
      dsimp only at h
      simp only [Except.error.injEq] at h
      subst h
      rcases decodeRLEChannel_errors _ _ _ _ _ hr1 with h' | h'
      · exact Or.inr (Or.inl h')
      · exact Or.inr (Or.inr h')
    | ok v1 =>
      obtain ⟨r1, off1⟩ := v1
      rw [hr1] at h
      dsimp only at h
      cases hr2 : decodeRLEChannel bytes off1 width (List.replicate width 0) with
      | error e2 =>
        rw [hr2] at h
        dsimp only at h
        simp only [Except.error.injEq] at h
        subst h
        rcases decodeRLEChannel_errors _ _ _ _ _ hr2 with h' | h'
        · exact Or.inr (Or.inl h')
        · exact Or.inr (Or.inr h')
      | ok v2 =>
        obtain ⟨r2, off2⟩ := v2
        rw [hr2] at h
        dsimp only at h
        cases hr3 : decodeRLEChannel bytes off2 width (List.replicate width 0) with
        | error e3 =>
          rw [hr3] at h
          dsimp only at h
          simp only [Except.error.injEq] at h
          subst h
          rcases decodeRLEChannel_errors _ _ _ _ _ hr3 with h' | h'
          · exact Or.inr (Or.inl h')
          · exact Or.inr (Or.inr h')
        | ok v3 =>
          obtain ⟨r3, off3⟩ := v3
          rw [hr3] at h
          dsimp only at h
          cases hr4 : decodeRLEChannel bytes off3 width (List.replicate width 0) with
          | error e4 =>
            rw [hr4] at h
            dsimp only at h
            simp only [Except.error.injEq] at h
            subst h
            rcases decodeRLEChannel_errors _ _ _ _ _ hr4 with h' | h'
            · exact Or.inr (Or.inl h')
            · exact Or.inr (Or.inr h')
          | ok v4 =>
            obtain ⟨r4, off4⟩ := v4
            rw [hr4] at h
            dsimp only at h
            exact absurd h (by simp)
  · exact Or.inl ((decodeOldPixels_eof bytes offset width e).mp h).1

/-- C8 counterexample: `UnexpectedEof` is not the only failure the
pixel-decoding phase can raise — a literal run that fits in the buffer but
extends past the scanline width makes `out.set` raise a `RangeError`.  The
scanline below has the RLE marker for width 8 followed by a literal run of 9
bytes, all present in the buffer. -/
theorem rle_literal_rangeError :
    decodeScanline [2, 2, 0, 8, 9, 1, 2, 3, 4, 5, 6, 7, 8, 9] 0 8 =
      .error HdrError.rangeError ∧
    HdrError.rangeError ≠ HdrError.unexpectedEofData ∧
    HdrError.rangeError ≠ HdrError.unexpectedEofRLE :=
  ⟨rfl, by decide, by decide⟩

/-- C8 amended: the HDR pixel-decoding phase fails with `UnexpectedEof`
whenever an old-format read, a repeat run or a literal run would read past the
end of the buffer — for the old format this is exact: it fails iff
`offset + width·4` exceeds the buffer — and the only failures the phase raises
are `UnexpectedEof` (data or RLE) and the `RangeError` of a literal run writing
past the scanline width. -/
theorem hdr_decode_failures :
    (∀ (bytes : List Nat) (offset width : Nat) (e : HdrError),
      decodeOldPixels bytes offset width = .error e ↔
        (e = HdrError.unexpectedEofData ∧ bytes.length < offset + width * 4)) ∧
    (∀ (bytes : List Nat) (offset width : Nat) (out : List Nat) (e : HdrError),
      decodeRLEChannel bytes offset width out = .error e →
        e = HdrError.unexpectedEofRLE ∨ e = HdrError.rangeError) ∧
    (∀ (bytes : List Nat) (offset width : Nat) (e : HdrError),
      decodeScanline bytes offset width = .error e →
        e = HdrError.unexpectedEofData ∨ e = HdrError.unexpectedEofRLE ∨
          e = HdrError.rangeError) :=
  ⟨decodeOldPixels_eof, decodeRLEChannel_errors, decodeScanline_errors⟩

theorem hdr_decode_failures_witness :
    decodeOldPixels [] 0 1 = .error HdrError.unexpectedEofData ∧
    (HdrError.unexpectedEofRLE = HdrError.unexpectedEofRLE ∨
      HdrError.unexpectedEofRLE = HdrError.rangeError) ∧
    (HdrError.rangeError = HdrError.unexpectedEofData ∨
      HdrError.rangeError = HdrError.unexpectedEofRLE ∨
      HdrError.rangeError = HdrError.rangeError) :=
  ⟨(hdr_decode_failures.1 [] 0 1 HdrError.unexpectedEofData).mpr ⟨rfl, by decide⟩,
   hdr_decode_failures.2.1 [1] 0 1 [0] HdrError.unexpectedEofRLE (by rfl),
   hdr_decode_failures.2.2 [2, 2, 0, 8, 9, 1, 2, 3, 4, 5, 6, 7, 8, 9] 0 8
     HdrError.rangeError (by rfl)⟩

/-! ## HDR metadata reading (src/unnamed/part_002, lines 69-119) and the
upload-time validation pre-check (src/unnamed/part_004, lines 5-18) -/

/-- ASCII whitespace, for the byte-level model of JS `String.trim` (every
string the header reader compares against is ASCII). -/
def isSpaceByte (b : Nat) : Bool :=
  b == 32 || b == 9 || b == 10 || b == 13 || b == 11 || b == 12

/-- JS `line.trim()` at the byte level. -/
def trimBytes (l : List Nat) : List Nat :=
  ((l.dropWhile isSpaceByte).reverse.dropWhile isSpaceByte).reverse

/-- Accumulator pass for `splitLines`: collect the current line (reversed)
until a `0x0a`; after a `0x0a` that ends the buffer no further (empty) line is
produced, because the reader loop stops at the buffer end. -/
def splitLinesGo (cur : List Nat) : List Nat → List (List Nat)
  | [] => [cur.reverse]
  | b :: rest =>
    if b = 10 then
      cur.reverse :: (if rest.isEmpty then [] else splitLinesGo [] rest)
    else splitLinesGo (b :: cur) rest

/-- The lines produced by calling `readLine` (src/unnamed/part_002, lines
69-74) repeatedly while `offset < bytes.length`: split at each `0x0a`,
consuming it; a trailing newline yields no further empty line because the loop
stops at the buffer end. -/
def splitLines (bytes : List Nat) : List (List Nat) :=
  if bytes.isEmpty then [] else splitLinesGo [] bytes

/-- The decimal digits of `Number.parseInt(s, 10)` after the first. -/
def digitsGo (acc : Nat) : List Nat → Nat
  | [] => acc
  | b :: rest =>
    if 48 ≤ b ∧ b ≤ 57 then digitsGo (acc * 10 + (b - 48)) rest else acc

/-- The value of the longest leading decimal-digit run; `none` when the first
byte is not a digit (`parseInt` returns `NaN`). -/
def digitsPrefixVal : List Nat → Option Nat
  | [] => none
  | b :: rest =>
    if 48 ≤ b ∧ b ≤ 57 then some (digitsGo (b - 48) rest) else none

/-- `Number.parseInt(s, 10)` on a whitespace-free token: an optional sign
followed by the longest decimal-digit prefix; `none` for `NaN`. -/
def parseIntDec (l : List Nat) : Option Int :=
  match l with
  | 45 :: rest => (digitsPrefixVal rest).map fun n => -(n : Int)
  | 43 :: rest => (digitsPrefixVal rest).map fun n => (n : Int)
  | _ => (digitsPrefixVal l).map fun n => (n : Int)

/-- `line.trim().split(/\s+/)` at the byte level: the empty string gives
`['']`; a trimmed nonempty string gives its whitespace-run-separated tokens
(splitting on every whitespace byte and dropping the empty chunks between
consecutive separators). -/
def jsSplitWs (l : List Nat) : List (List Nat) :=
  if l = [] then [[]]
  else (l.splitOnP fun b => isSpaceByte b).filter fun w => !w.isEmpty

/-- The parsed resolution line. -/
structure HdrResolution where
  width : Nat
  height : Nat
  yNeg : Bool
  xPos : Bool
deriving DecidableEq

/-- Embedding of `parseResolution` (src/unnamed/part_002, lines 76-91):
exactly four whitespace-separated tokens `<Y-sign> <height> <X-sign> <width>`;
`parseInt` values must be finite (non-`NaN`) and positive; signs must be
`±Y` / `±X`.  (The source's falsy-token guard cannot fire: the tokens of a
split are nonempty whenever there are four of them.) -/
def parseResolution (line : List Nat) : Option HdrResolution :=
  match jsSplitWs (trimBytes line) with
  | [ys, hs, xs, ws] =>
    match parseIntDec hs, parseIntDec ws with
    | some h, some w =>
      if w ≤ 0 ∨ h ≤ 0 then none
      else if ys ≠ asciiBytes "-Y" ∧ ys ≠ asciiBytes "+Y" then none
      else if xs ≠ asciiBytes "+X" ∧ xs ≠ asciiBytes "-X" then none
      else some ⟨w.toNat, h.toNat, ys == asciiBytes "-Y", xs == asciiBytes "+X"⟩
    | _, _ => none
  | _ => none

def formatPrefix : List Nat := asciiBytes "FORMAT="

def formatMagic : List Nat := asciiBytes "FORMAT=32-bit_rle_rgbe"

/-- Embedding of the header loop of `readHDRMetadata` (src/unnamed/part_002,
lines 93-119) over the buffer's lines, carrying `formatOk`: a line starting
with `FORMAT=` replaces `formatOk` by whether its trimmed text is exactly
`FORMAT=32-bit_rle_rgbe` (a later `FORMAT=` line overwrites an earlier one);
at the first blank (trim-empty) line the next line is parsed as the
resolution — `'Invalid HDR resolution'` on parse failure, then
`'Unsupported HDR format'` unless `formatOk`; `'Unsupported HDR format'` or
`'Missing HDR resolution'` when the lines run out. -/
def hdrHeaderScan : List (List Nat) → Bool → Except HdrError (Nat × Nat)
  | [], fOk =>
    if fOk then .error .missingResolution else .error .unsupportedFormat
  | line :: rest, fOk =>
    if trimBytes line = [] then
      match parseResolution (rest.headD []) with
      | none => .error .invalidResolution
      | some r =>
        if (if formatPrefix.isPrefixOf line then trimBytes line == formatMagic
            else fOk) then
          .ok (r.width, r.height)
        else .error .unsupportedFormat
    else
      hdrHeaderScan rest
        (if formatPrefix.isPrefixOf line then trimBytes line == formatMagic
         else fOk)

/-- Embedding of `readHDRMetadata` (src/unnamed/part_002, lines 93-119),
returning the parsed `(width, height)`. -/
def readHDRMetadata (bytes : List Nat) : Except HdrError (Nat × Nat) :=
  hdrHeaderScan (splitLines bytes) false

/-- JS `text.includes(needle)` at the byte level: does `needle` occur as a
contiguous subsequence? -/
def containsSeq (needle : List Nat) : List Nat → Bool
  | [] => needle.isEmpty
  | b :: rest => needle.isPrefixOf (b :: rest) || containsSeq needle rest

/-- Embedding of the `hdr` branch of `validatePanoramaBuffer`
(src/unnamed/part_004, lines 9-18): the first 4096 bytes must start with
`#?RADIANCE` and contain `FORMAT=32-bit_rle_rgbe`. -/
def validatePanoramaBufferHdr (bytes : List Nat) : Except HdrError Unit :=
  if ¬ (asciiBytes "#?RADIANCE").isPrefixOf (bytes.take 4096) then
    .error .invalidSignature
  else if ¬ containsSeq formatMagic (bytes.take 4096) then
    .error .unsupportedFormat
  else .ok ()

/-- The lines up to and including the first blank line, paired with the line
immediately after it (`[]` when absent). -/
def firstBlankSplit : List (List Nat) → Option (List (List Nat) × List Nat)
  | [] => none
  | line :: rest =>
    if trimBytes line = [] then some ([line], rest.headD [])
    else (firstBlankSplit rest).map fun p => (line :: p.1, p.2)

/-- The `formatOk` flag after folding the `FORMAT=` directives of `pre` over
the initial value: the trimmed text of the last `FORMAT=`-prefixed line
compared against `FORMAT=32-bit_rle_rgbe` (or the initial value if there is
none). -/
def lastFormatState (init : Bool) (pre : List (List Nat)) : Bool :=
  pre.foldl
    (fun b line =>
      if formatPrefix.isPrefixOf line then trimBytes line == formatMagic else b)
    init

theorem hdrHeaderScan_ok_iff (ls : List (List Nat)) :
    ∀ fOk, (∃ wh, hdrHeaderScan ls fOk = .ok wh) ↔
      (∃ pre nxt, firstBlankSplit ls = some (pre, nxt) ∧
        lastFormatState fOk pre = true ∧ (parseResolution nxt).isSome = true) := by
  induction ls with
  | nil =>
    intro fOk
    constructor
    · rintro ⟨wh, h⟩
      unfold hdrHeaderScan at h
      split_ifs at h
    · rintro ⟨pre, nxt, h, -, -⟩
      exact absurd h (by simp [firstBlankSplit])
  | cons line rest ih =>
    intro fOk
    unfold hdrHeaderScan firstBlankSplit
    by_cases hb : trimBytes line = []
    · rw [if_pos hb, if_pos hb]
      cases hp : parseResolution (rest.headD []) with
      | none =>
        constructor
        · rintro ⟨wh, h⟩
          exact absurd h (by simp)
        · rintro ⟨pre, nxt, hsome, -, hres⟩
          simp only [Option.some.injEq, Prod.mk.injEq] at hsome
          rw [← hsome.2, hp] at hres
          exact absurd hres (by simp)
      | some r =>
        constructor
        · rintro ⟨wh, h⟩
          dsimp only at h
          by_cases hf : (if formatPrefix.isPrefixOf line then
              trimBytes line == formatMagic else fOk) = true
          · exact ⟨[line], rest.headD [], rfl,
              by simpa [lastFormatState] using hf, by rw [hp]; rfl⟩
          · rw [if_neg hf] at h
            exact absurd h (by simp)
        · rintro ⟨pre, nxt, hsome, hfmt, -⟩
          simp only [Option.some.injEq, Prod.mk.injEq] at hsome
          rw [← hsome.1] at hfmt
          simp only [lastFormatState, List.foldl] at hfmt
          refine ⟨(r.width, r.height), ?_⟩
          dsimp only
          rw [if_pos hfmt]
    · rw [if_neg hb, if_neg hb]
      rw [ih (if formatPrefix.isPrefixOf line then trimBytes line == formatMagic
        else fOk)]
      cases hfb : firstBlankSplit rest with
      | none =>
        constructor
        · rintro ⟨pre, nxt, hsome, -, -⟩
          exact absurd hsome (by simp)
        · rintro ⟨pre, nxt, hsome, -, -⟩
          exact absurd hsome (by simp)
      | some p =>
        constructor
        · rintro ⟨pre, nxt, hsome, hfmt, hres⟩
          simp only [Option.some.injEq] at hsome
          subst hsome
          refine ⟨line :: pre, nxt, by simp, ?_, hres⟩
          simp only [lastFormatState, List.foldl]
          exact hfmt
        · rintro ⟨pre, nxt, hsome, hfmt, hres⟩
          simp only [Option.map_some', Option.some.injEq, Prod.mk.injEq] at hsome
          refine ⟨p.1, p.2, rfl, ?_, ?_⟩
          · rw [← hsome.1] at hfmt
            simp only [lastFormatState, List.foldl] at hfmt
            exact hfmt
          · rw [← hsome.2] at hres
            exact hres

/-- C10 counterexample: containing a qualifying `FORMAT=` line before the first
blank line is not sufficient for `readHDRMetadata` to succeed — a later
non-qualifying `FORMAT=` line overwrites the flag.  The buffer below has a
line trimming to exactly `FORMAT=32-bit_rle_rgbe` before the first blank line
and a valid resolution line right after it, yet the reader fails. -/
theorem readHDRMetadata_claim_false :
    readHDRMetadata (asciiBytes "FORMAT=32-bit_rle_rgbe\nFORMAT=x\n\n-Y 2 +X 2\n") =
      .error HdrError.unsupportedFormat ∧
    firstBlankSplit
        (splitLines (asciiBytes "FORMAT=32-bit_rle_rgbe\nFORMAT=x\n\n-Y 2 +X 2\n")) =
      some ([asciiBytes "FORMAT=32-bit_rle_rgbe", asciiBytes "FORMAT=x", []],
        asciiBytes "-Y 2 +X 2") ∧
    asciiBytes "FORMAT=32-bit_rle_rgbe" ∈
      [asciiBytes "FORMAT=32-bit_rle_rgbe", asciiBytes "FORMAT=x",
        ([] : List Nat)] ∧
    formatPrefix.isPrefixOf (asciiBytes "FORMAT=32-bit_rle_rgbe") = true ∧
    trimBytes (asciiBytes "FORMAT=32-bit_rle_rgbe") = formatMagic ∧
    (parseResolution (asciiBytes "-Y 2 +X 2")).isSome = true :=
  ⟨rfl, by decide, by decide, by decide, by decide, by decide⟩

/-- C10 amended: `readHDRMetadata` never examines the `#?RADIANCE` signature —
it succeeds on a buffer exactly when, among the newline-delimited lines up to
the first blank (trim-empty) line, the `formatOk` flag left by the `FORMAT=`
directives is set (that is, the LAST line starting with `FORMAT=` trims to
exactly `FORMAT=32-bit_rle_rgbe`; a qualifying line followed by a later
non-qualifying one does not suffice) and the line immediately after the first
blank line parses as a valid resolution.  A signatureless buffer satisfying
this succeeds while the separate `validatePanoramaBuffer` pre-check rejects
it, and that pre-check is where the signature is enforced. -/
theorem readHDRMetadata_success_iff :
    (∀ bytes : List Nat, (∃ wh, readHDRMetadata bytes = .ok wh) ↔
      (∃ pre nxt, firstBlankSplit (splitLines bytes) = some (pre, nxt) ∧
        lastFormatState false pre = true ∧ (parseResolution nxt).isSome = true)) ∧
    readHDRMetadata (asciiBytes "FORMAT=32-bit_rle_rgbe\n\n-Y 2 +X 2\n") =
      .ok (2, 2) ∧
    validatePanoramaBufferHdr (asciiBytes "FORMAT=32-bit_rle_rgbe\n\n-Y 2 +X 2\n") =
      .error HdrError.invalidSignature ∧
    (∀ bytes : List Nat, validatePanoramaBufferHdr bytes = .ok () →
      (asciiBytes "#?RADIANCE").isPrefixOf (bytes.take 4096) = true) := by
  refine ⟨fun bytes => hdrHeaderScan_ok_iff (splitLines bytes) false, rfl, rfl, ?_⟩
  intro bytes h
  unfold validatePanoramaBufferHdr at h
  split_ifs at h with h1 h2
  · simpa using h1

theorem readHDRMetadata_success_iff_witness :
    (asciiBytes "#?RADIANCE").isPrefixOf
      ((asciiBytes "#?RADIANCE\nFORMAT=32-bit_rle_rgbe\n\n-Y 2 +X 2\n").take 4096) =
      true :=
  readHDRMetadata_success_iff.2.2.2
    (asciiBytes "#?RADIANCE\nFORMAT=32-bit_rle_rgbe\n\n-Y 2 +X 2\n") (by rfl)
